import Mathlib

/-!
Raja-Mantri-Chor-Sipahi backend: store and round engine.

A shallow embedding of `backend/internal/store/store.go`,
`backend/internal/game/roles.go` and, from `backend/internal/handlers`, the
request handlers of room.go and game.go, the hub loop of websocket_hub.go,
`SendToPlayer` of broadcast.go, and `HandleWebSocket`, the inbound relay of
`readPump` and the heartbeat constants of websocket.go.

* Go `string` is `String`, Go `int` is `Int` (scores are only ever assigned,
  never added by the code, so no overflow arises).
* A `*Room` is embedded by the value of the object it points to; every method
  that mutates its receiver returns the new value.  The mutexes only
  serialise callers and vanish in this sequential embedding.
* A Go `map[string]T` is an association list with at most one entry per key,
  read with `mapGet` and written with `mapSet`.
* `rand.Shuffle` takes its random draws from an explicit source; so do the
  handlers, which also take the formatted clock and `json.Marshal`.
* A buffered channel is its queue, capacity and closed flag; a panic (send on
  or close of a closed channel) is the result `none`.  Each case of the hub
  loop is one step on the hub state.
-/

/-! ## Go maps with string keys -/

/-- Map read `m[key]`, with `none` for an absent key. -/
def mapGet {β : Type} : List (String × β) → String → Option β
  | [], _ => none
  | (k, v) :: m, key => if key = k then some v else mapGet m key

/-- Map write `m[key] = val`: replaces the entry of `key` when there is one. -/
def mapSet {β : Type} : List (String × β) → String → β → List (String × β)
  | [], key, val => [(key, val)]
  | (k, v) :: m, key, val =>
    if key = k then (k, val) :: m else (k, v) :: mapSet m key val

/-! ## package store -/

namespace store

/-- The record `Player` of store.go. -/
structure Player where
  ID : String
  Name : String
  Role : String
  Score : Int
  deriving DecidableEq, Repr

/-- The record `Room` of store.go, without its mutex. -/
structure Room where
  ID : String
  Players : List Player
  Status : String
  deriving DecidableEq, Repr

/-- The record `RoomManager` of store.go, without its mutex. -/
structure RoomManager where
  rooms : List (String × Room)
  deriving DecidableEq, Repr

/-- `NewRoomManager`: a registry with an empty map. -/
def NewRoomManager : RoomManager :=
  { rooms := [] }

/-- `CreateRoom`: builds a fresh room, stores it under `id` and returns it. -/
def RoomManager.CreateRoom (rm : RoomManager) (id : String) : RoomManager × Room :=
  let room : Room := { ID := id, Players := [], Status := "WAITING" }
  ({ rooms := mapSet rm.rooms id room }, room)

/-- `GetRoom`: the map entry of `id`, `none` standing for the nil pointer. -/
def RoomManager.GetRoom (rm : RoomManager) (id : String) : Option Room :=
  mapGet rm.rooms id

/-- `AddPlayer`: `r.Players = append(r.Players, player)`. -/
def Room.AddPlayer (r : Room) (player : Player) : Room :=
  { r with Players := r.Players ++ [player] }

/-- `UpdateStatus`. -/
def Room.UpdateStatus (r : Room) (status : String) : Room :=
  { r with Status := status }

/-- `GetPlayers`: a copy of the player slice. -/
def Room.GetPlayers (r : Room) : List Player :=
  r.Players

/-- `GetStatus`. -/
def Room.GetStatus (r : Room) : String :=
  r.Status

/-- `UpdatePlayersAndStatus`: replaces players and status together. -/
def Room.UpdatePlayersAndStatus (r : Room) (players : List Player) (status : String) : Room :=
  { r with Players := players, Status := status }

end store

/-! ## package game -/

namespace game

open store

/-- The loop of `rand.Shuffle` of math/rand/v2, entered with `i = n - 1`:
`for ; i > 0; i-- { j := uint64n(i + 1); swap(i, j) }`.  The value `src i` is
what the generator yields at loop index `i`; `uint64n (i + 1)` brings it
into the range `[0, i]`. -/
def shuffleLoop {σ : Type} (src : Nat → Nat) (swap : Nat → Nat → σ → σ) : Nat → σ → σ
  | 0, s => s
  | i + 1, s => shuffleLoop src swap i (swap (i + 1) (src (i + 1) % (i + 2)) s)

/-- `rand.Shuffle(n, swap)`. -/
def Shuffle {σ : Type} (src : Nat → Nat) (n : Nat) (swap : Nat → Nat → σ → σ) (s : σ) : σ :=
  shuffleLoop src swap (n - 1) s

/-- The callback of AssignRoles: `roles[i], roles[j] = roles[j], roles[i]`. -/
def swapRoles (i j : Nat) (roles : List String) : List String :=
  (roles.set i (roles.getD j "")).set j (roles.getD i "")

/-- The role slice AssignRoles starts from. -/
def initialRoles : List String :=
  ["Raja", "Mantri", "Chor", "Sipahi"]

/-- The role slice after `rand.Shuffle(len(roles), ...)`. -/
def shuffledRoles (src : Nat → Nat) : List String :=
  Shuffle src initialRoles.length swapRoles initialRoles

/-- `AssignRoles`, with the random source of the shuffle made explicit. -/
def AssignRoles (src : Nat → Nat) (room : Room) : Room :=
  let players := room.GetPlayers
  if players.length ≠ 4 then room
  else
    let roles := shuffledRoles src
    let updatedPlayers := players.mapIdx (fun i p => { p with Role := roles.getD i "" })
    room.UpdatePlayersAndStatus updatedPlayers "GUESSING"

/-- The record `GuessResult` of roles.go. -/
structure GuessResult where
  Correct : Bool
  MantriID : String
  ChorID : String
  ActualChorID : String
  UpdatedScores : List (String × Int)
  deriving DecidableEq, Repr

/-- The four pointers `mantri, chor, raja, sipahi` of ProcessGuess. -/
structure Holders where
  mantri : Option Player
  chor : Option Player
  raja : Option Player
  sipahi : Option Player
  deriving DecidableEq, Repr

/-- One iteration of the search loop of ProcessGuess: the `switch` on the
player's role. -/
def locate (h : Holders) (player : Player) : Holders :=
  if player.Role = "Mantri" then { h with mantri := some player }
  else if player.Role = "Chor" then { h with chor := some player }
  else if player.Role = "Raja" then { h with raja := some player }
  else if player.Role = "Sipahi" then { h with sipahi := some player }
  else h

/-- The search loop of ProcessGuess, all four pointers starting nil. -/
def findHolders (players : List Player) : Holders :=
  players.foldl locate { mantri := none, chor := none, raja := none, sipahi := none }

/-- One iteration of the scoring loop of ProcessGuess. -/
def rescore (correctGuess : Bool) (p : Player) : Player :=
  if p.Role = "Raja" then { p with Score := 1000 }
  else if p.Role = "Mantri" then
    if correctGuess then { p with Score := 800 } else { p with Score := 0 }
  else if p.Role = "Sipahi" then { p with Score := 500 }
  else if p.Role = "Chor" then
    if correctGuess then { p with Score := 0 } else { p with Score := 800 }
  else p

/-- The final loop of ProcessGuess, filling `result.UpdatedScores`. -/
def collectScores (players : List Player) : List (String × Int) :=
  players.foldl (fun m player => mapSet m player.ID player.Score) []

/-- `ProcessGuess`: the first component is the room after the call, the second
the returned pair, `Except.error msg` standing for `(nil, errors.New(msg))`
and `Except.ok r` for `(r, nil)`. -/
def ProcessGuess (room : Room) (mantriPlayerID guessedChorPlayerID : String) :
    Room × Except String GuessResult :=
  let players := room.GetPlayers
  let h := findHolders players
  match h.mantri, h.chor, h.raja, h.sipahi with
  | some mantri, some chor, some _, some _ =>
    if mantri.ID ≠ mantriPlayerID then
      (room, Except.error "only the Mantri can make a guess")
    else
      let correctGuess : Bool := decide (guessedChorPlayerID = chor.ID)
      let updatedPlayers := players.map (rescore correctGuess)
      (room.UpdatePlayersAndStatus updatedPlayers "FINISHED",
        Except.ok
          { Correct := correctGuess
            MantriID := mantri.ID
            ChorID := guessedChorPlayerID
            ActualChorID := chor.ID
            UpdatedScores := collectScores updatedPlayers })
  | _, _, _, _ =>
    (room, Except.error "room does not have all required roles assigned")

/-- A room is role-complete when it has four players, each holding a distinct
one of the four roles: the roles read off the player sequence are a
rearrangement of Raja, Mantri, Chor, Sipahi. -/
def RoleComplete (room : Room) : Prop :=
  (room.Players.map (fun p => p.Role)).Perm ["Raja", "Mantri", "Chor", "Sipahi"]

instance (room : Room) : Decidable (RoleComplete room) := by
  unfold RoleComplete; infer_instance

/-- The last player of the sequence holding `role`, or `acc` when none does. -/
def lastWithRole (role : String) : List Player → Option Player → Option Player
  | [], acc => acc
  | p :: ps, acc => lastWithRole role ps (if p.Role = role then some p else acc)

/-- The fixed score table: the score of a role after a correct or an incorrect
guess (0 for a string that is none of the four roles). -/
def tableScore (correct : Bool) (role : String) : Int :=
  if role = "Raja" then 1000
  else if role = "Mantri" then (if correct then 800 else 0)
  else if role = "Sipahi" then 500
  else if role = "Chor" then (if correct then 0 else 800)
  else 0

end game

open store game



/-! ## Registry histories and sample data -/

/-- What callers do to a registry: create a room under a code, or change the
room stored under a code through the pointer `GetRoom` returned (as
`AddPlayer`, `UpdateStatus` and `UpdatePlayersAndStatus` do). -/
inductive RegistryOp where
  | create (id : String)
  | mutate (id : String) (f : Room → Room)

/-- One registry operation. -/
def RegistryOp.apply (rm : RoomManager) : RegistryOp → RoomManager
  | RegistryOp.create id => (rm.CreateRoom id).1
  | RegistryOp.mutate id f =>
    match rm.GetRoom id with
    | some room => { rooms := mapSet rm.rooms id (f room) }
    | none => rm

/-- The registry a history of operations builds, starting from `NewRoomManager`. -/
def runOps (ops : List RegistryOp) : RoomManager :=
  ops.foldl RegistryOp.apply NewRoomManager

/-- The codes `CreateRoom` was called with in a history. -/
def createdCodes : List RegistryOp → List String
  | [] => []
  | RegistryOp.create id :: ops => id :: createdCodes ops
  | RegistryOp.mutate _ _ :: ops => createdCodes ops

/-- Four players as the handlers leave them before the round starts. -/
def waitingRoom : Room :=
  { ID := "AB12"
    Players := [⟨"p1", "Asha", "Admin", 0⟩, ⟨"p2", "Bala", "Player", 0⟩,
      ⟨"p3", "Chitra", "Player", 0⟩, ⟨"p4", "Dev", "Player", 0⟩]
    Status := "WAITING" }

/-- Three players only. -/
def trioRoom : Room :=
  { ID := "CD34"
    Players := [⟨"p1", "Asha", "Admin", 0⟩, ⟨"p2", "Bala", "Player", 0⟩,
      ⟨"p3", "Chitra", "Player", 0⟩]
    Status := "WAITING" }

/-- A role-complete room with arbitrary prior scores. -/
def guessingRoom : Room :=
  { ID := "EF56"
    Players := [⟨"p1", "Asha", "Raja", 7⟩, ⟨"p2", "Bala", "Mantri", 0⟩,
      ⟨"p3", "Chitra", "Chor", -3⟩, ⟨"p4", "Dev", "Sipahi", 12⟩]
    Status := "GUESSING" }

/-- A role-complete room in which two players carry the same ID. -/
def twinRoom : Room :=
  { ID := "GH78"
    Players := [⟨"x", "Asha", "Raja", 0⟩, ⟨"x", "Bala", "Mantri", 0⟩,
      ⟨"c", "Chitra", "Chor", 0⟩, ⟨"s", "Dev", "Sipahi", 0⟩]
    Status := "GUESSING" }

/-- A history that creates the room AB12 and lets one player join it. -/
def joinedHistory : List RegistryOp :=
  [RegistryOp.create "AB12",
    RegistryOp.mutate "AB12" (fun r => r.AddPlayer ⟨"p1", "Asha", "Admin", 0⟩)]

/-! ## Room histories -/

/-- A call on a room: the methods of store.go that the handlers use and the two
functions of roles.go. -/
inductive RoomCall where
  | addPlayer (player : Player)
  | getPlayers
  | getStatus
  | assignRoles (src : Nat → Nat)
  | processGuess (mantriPlayerID guessedChorPlayerID : String)

/-- The room after a call.  `GetPlayers` and `GetStatus` take the lock, read
and return: they write no field. -/
def RoomCall.run (r : Room) : RoomCall → Room
  | RoomCall.addPlayer player => r.AddPlayer player
  | RoomCall.getPlayers => r
  | RoomCall.getStatus => r
  | RoomCall.assignRoles src => AssignRoles src r
  | RoomCall.processGuess mantriPlayerID guessedChorPlayerID =>
    (ProcessGuess r mantriPlayerID guessedChorPlayerID).1

/-- The room after a sequence of calls. -/
def runCalls (r : Room) (calls : List RoomCall) : Room :=
  calls.foldl RoomCall.run r

/-- Whether, along a sequence of calls, no player whose record already carries
one of the four roles is added to a room whose status is GUESSING. -/
def joinsGated : Room → List RoomCall → Bool
  | _, [] => true
  | r, RoomCall.addPlayer player :: calls =>
    decide (r.Status = "GUESSING" → player.Role ∉ ["Raja", "Mantri", "Chor", "Sipahi"]) &&
      joinsGated (r.AddPlayer player) calls
  | r, call :: calls => joinsGated (RoomCall.run r call) calls

/-- While the status is GUESSING each of the four roles has exactly one
holder. -/
def GuessingComplete (room : Room) : Prop :=
  room.Status = "GUESSING" →
    ∀ role ∈ ["Raja", "Mantri", "Chor", "Sipahi"],
      room.Players.countP (fun p => decide (p.Role = role)) = 1

/-- The room `(CreateRoom code)` returns. -/
def freshRoom (code : String) : Room :=
  { ID := code, Players := [], Status := "WAITING" }

/-- Four joins, a role assignment, and a fifth join by a player whose record
already says Raja. -/
def lateJoinCalls : List RoomCall :=
  [RoomCall.addPlayer ⟨"p1", "Asha", "Admin", 0⟩, RoomCall.addPlayer ⟨"p2", "Bala", "Player", 0⟩,
    RoomCall.addPlayer ⟨"p3", "Chitra", "Player", 0⟩, RoomCall.addPlayer ⟨"p4", "Dev", "Player", 0⟩,
    RoomCall.assignRoles (fun _ => 0),
    RoomCall.addPlayer ⟨"p5", "Esha", "Raja", 0⟩]

/-- Four joins, a role assignment, and a fifth join by a player whose record
carries none of the four roles. -/
def bystanderJoinCalls : List RoomCall :=
  [RoomCall.addPlayer ⟨"p1", "Asha", "Admin", 0⟩, RoomCall.addPlayer ⟨"p2", "Bala", "Player", 0⟩,
    RoomCall.addPlayer ⟨"p3", "Chitra", "Player", 0⟩, RoomCall.addPlayer ⟨"p4", "Dev", "Player", 0⟩,
    RoomCall.assignRoles (fun _ => 0),
    RoomCall.addPlayer ⟨"p5", "Esha", "Player", 0⟩]

/-- The room `guessingRoom` after the Mantri's correct guess. -/
def finishedRoom : Room :=
  (ProcessGuess guessingRoom "p2" "p3").1

/-! ## package handlers: requests -/

namespace handlers

/-- A value stored in a payload map (`map[string]interface{}`): the handlers
store strings, integers, booleans and score maps. -/
inductive Value where
  | str (s : String)
  | int (n : Int)
  | bool (b : Bool)
  | scores (m : List (String × Int))
  deriving DecidableEq, Repr

/-- The record `GameMessage` of broadcast.go (its field `Type` is `MessageType`
here). -/
structure GameMessage where
  MessageType : String
  Payload : List (String × Value)
  deriving DecidableEq, Repr

/-- The record `BroadcastMessage` of websocket_hub.go; a `[]byte` is a `String`. -/
structure BroadcastMessage where
  RoomID : String
  Message : String
  deriving DecidableEq, Repr

/-- `Broadcast`: marshals the message and hands it to `hub.BroadcastToRoom`;
nothing is handed over when marshalling fails.  The result lists the requests
put on the hub's broadcast channel.  `marshal` stands for `json.Marshal`. -/
def Broadcast (marshal : GameMessage → Option String) (roomID messageType : String)
    (payload : List (String × Value)) : List BroadcastMessage :=
  match marshal { MessageType := messageType, Payload := payload } with
  | none => []
  | some messageJSON => [{ RoomID := roomID, Message := messageJSON }]

/-- `BroadcastPlayerJoined`. -/
def BroadcastPlayerJoined (marshal : GameMessage → Option String)
    (roomID playerName playerID : String) : List BroadcastMessage :=
  Broadcast marshal roomID "PLAYER_JOINED"
    [("name", Value.str playerName), ("playerId", Value.str playerID)]

/-- The JSON bodies the handlers write. -/
inductive Body where
  | error (msg : String)
  | created (roomId : String)
  | joined (message roomId : String)
  | guess (result : GuessResult)
  deriving DecidableEq, Repr

/-- What a handler leaves behind: the registry, the status code and body
written to the response, and the requests handed to the hub for broadcast. -/
structure Handled where
  manager : RoomManager
  status : Nat
  body : Body
  broadcasts : List BroadcastMessage
  deriving DecidableEq, Repr

/-- The record `CreateRoomRequest`. -/
structure CreateRoomRequest where
  PlayerName : String
  deriving DecidableEq, Repr

/-- The record `JoinRoomRequest`. -/
structure JoinRoomRequest where
  RoomID : String
  PlayerName : String
  deriving DecidableEq, Repr

/-- The constant `charset` of generateRoomID. -/
def charset : List Char :=
  "ABCDEFGHIJKLMNOPQRSTUVWXYZ0123456789".toList

/-- `generateRoomID`: four characters `charset[random.Intn(len(charset))]`; the
value `draw i` is what the generator yields for the i-th of them. -/
def generateRoomID (draw : Nat → Nat) : String :=
  String.mk ((List.range 4).map (fun i => charset.getD (draw i % charset.length) 'A'))

/-- `generatePlayerID`: the clock formatted as `20060102150405`, a dash, and
the character `rune(random.Intn(10000))`.  `now` is the formatted clock and
`draw` what the generator yields. -/
def generatePlayerID (now : String) (draw : Nat) : String :=
  now ++ "-" ++ String.singleton (Char.ofNat (draw % 10000))

/-- The handler `CreateRoom`; `body` is the decoded request, `none` when
decoding fails.  The first four draws make the room code, the fifth the
player ID. -/
def CreateRoom (marshal : GameMessage → Option String) (rm : RoomManager) (now : String)
    (draw : Nat → Nat) (body : Option CreateRoomRequest) : Handled :=
  match body with
  | none => ⟨rm, 400, Body.error "Invalid request body", []⟩
  | some req =>
    if req.PlayerName = "" then ⟨rm, 400, Body.error "playerName is required", []⟩
    else
      let roomID := generateRoomID draw
      let created := rm.CreateRoom roomID
      let admin : Player :=
        { ID := generatePlayerID now (draw 4), Name := req.PlayerName, Role := "Admin", Score := 0 }
      ⟨{ rooms := mapSet created.1.rooms roomID (created.2.AddPlayer admin) }, 201,
        Body.created roomID, BroadcastPlayerJoined marshal roomID admin.Name admin.ID⟩

/-- The handler `JoinRoom`. -/
def JoinRoom (marshal : GameMessage → Option String) (rm : RoomManager) (now : String)
    (draw : Nat) (body : Option JoinRoomRequest) : Handled :=
  match body with
  | none => ⟨rm, 400, Body.error "Invalid request body", []⟩
  | some req =>
    if req.RoomID = "" ∨ req.PlayerName = "" then
      ⟨rm, 400, Body.error "roomId and playerName are required", []⟩
    else
      match rm.GetRoom req.RoomID with
      | none => ⟨rm, 404, Body.error "Room not found", []⟩
      | some room =>
        if room.GetPlayers.length ≥ 4 then
          ⟨rm, 400, Body.error "Room is full (max 4 players)", []⟩
        else
          let player : Player :=
            { ID := generatePlayerID now draw, Name := req.PlayerName, Role := "Player",
              Score := 0 }
          ⟨{ rooms := mapSet rm.rooms req.RoomID (room.AddPlayer player) }, 200,
            Body.joined "Successfully joined room" req.RoomID,
            BroadcastPlayerJoined marshal req.RoomID player.Name player.ID⟩

end handlers

open handlers

/-- A stand-in for `json.Marshal` in examples: it never fails and keeps the
message type only. -/
def sampleMarshal (m : GameMessage) : Option String :=
  some m.MessageType

/-- Two JoinRoom requests for the fresh room AB12 served within the same clock
second, the generator yielding 42 both times. -/
def twiceJoined : Handled :=
  JoinRoom sampleMarshal
    (JoinRoom sampleMarshal (NewRoomManager.CreateRoom "AB12").1 "20251103101500" 42
      (some ⟨"AB12", "Asha"⟩)).manager
    "20251103101500" 42 (some ⟨"AB12", "Bala"⟩)

/-! ## package handlers: the hub -/

/-- Map delete `delete(m, key)`. -/
def mapDelete {β : Type} : List (String × β) → String → List (String × β)
  | [], _ => []
  | (k, v) :: m, key => if key = k then mapDelete m key else (k, v) :: mapDelete m key

namespace handlers

/-- The state of a buffered channel `chan []byte`: the queued messages, oldest
first, the capacity given to `make`, and whether `close` was called. -/
structure Chan where
  buf : List String
  cap : Nat
  closed : Bool
  deriving DecidableEq, Repr

/-- The channel HandleWebSocket creates: `make(chan []byte, 256)`. -/
def newSendChan : Chan :=
  { buf := [], cap := 256, closed := false }

/-- What `select { case ch <- msg: ... default: ... }` does: a send on a closed
channel panics, a channel with room takes the message at its tail, and a full
channel selects `default`. -/
inductive SendOutcome where
  | panic
  | sent (ch : Chan)
  | full
  deriving DecidableEq, Repr

/-- The non-blocking send on a channel. -/
def Chan.trySend (ch : Chan) (msg : String) : SendOutcome :=
  if ch.closed then SendOutcome.panic
  else if ch.buf.length < ch.cap then SendOutcome.sent { ch with buf := ch.buf ++ [msg] }
  else SendOutcome.full

/-- The builtin `close(ch)`: `none` is the panic on an already closed channel. -/
def Chan.close (ch : Chan) : Option Chan :=
  if ch.closed then none else some { ch with closed := true }

/-- A `*Client` of websocket_hub.go.  `addr` is the identity of the pointer;
`RoomID` and `PlayerID` are never written after creation.  The transport
`Conn` is left out, and the state of the channel `Send` is kept per client in
`HubState.send`. -/
structure Client where
  addr : Nat
  RoomID : String
  PlayerID : String
  deriving DecidableEq, Repr

/-- What the hub loop works on: the map `h.rooms` (a set `map[*Client]bool` is
the list of its members, in the order a `range` visits them) and the state of
every client's `Send` channel. -/
structure HubState where
  rooms : List (String × List Client)
  send : Client → Chan

/-- `NewHub`: no rooms; every client that will be created starts with the
channel HandleWebSocket makes for it. -/
def NewHub : HubState :=
  { rooms := [], send := fun _ => newSendChan }

/-- Set insert `clients[client] = true`. -/
def setAdd (clients : List Client) (client : Client) : List Client :=
  if client ∈ clients then clients else clients ++ [client]

/-- Set delete `delete(clients, client)`. -/
def setDelete (clients : List Client) (client : Client) : List Client :=
  clients.filter (fun x => decide (x ≠ client))

/-- The members of `h.rooms[roomID]`; a missing entry reads as the nil map,
which has no members. -/
def HubState.clientsOf (s : HubState) (roomID : String) : List Client :=
  (mapGet s.rooms roomID).getD []

/-- The `register` case of `Hub.Run`. -/
def HubState.register (s : HubState) (client : Client) : HubState :=
  match mapGet s.rooms client.RoomID with
  | none => { s with rooms := mapSet s.rooms client.RoomID (setAdd [] client) }
  | some clients => { s with rooms := mapSet s.rooms client.RoomID (setAdd clients client) }

/-- The `unregister` case of `Hub.Run`; `none` is a panic. -/
def HubState.unregister (s : HubState) (client : Client) : Option HubState :=
  match mapGet s.rooms client.RoomID with
  | none => some s
  | some clients =>
    if client ∈ clients then
      let remaining := setDelete clients client
      match (s.send client).close with
      | none => none
      | some ch =>
        let rooms1 := mapSet s.rooms client.RoomID remaining
        if remaining.length = 0 then
          some { rooms := mapDelete rooms1 client.RoomID, send := Function.update s.send client ch }
        else
          some { rooms := rooms1, send := Function.update s.send client ch }
    else some s

/-- One iteration of the delivery loop of the `broadcast` case. -/
def HubState.broadcastTo (roomID message : String) (s : HubState) (client : Client) :
    Option HubState :=
  match (s.send client).trySend message with
  | SendOutcome.panic => none
  | SendOutcome.sent ch => some { s with send := Function.update s.send client ch }
  | SendOutcome.full =>
    match (s.send client).close with
    | none => none
    | some ch =>
      match mapGet s.rooms roomID with
      | some roomClients =>
        some { rooms := mapSet s.rooms roomID (setDelete roomClients client),
               send := Function.update s.send client ch }
      | none => some { s with send := Function.update s.send client ch }

/-- The delivery loop of the `broadcast` case over the snapshot `clientList`. -/
def HubState.broadcastLoop (roomID message : String) : List Client → HubState → Option HubState
  | [], s => some s
  | client :: clientList, s =>
    match s.broadcastTo roomID message client with
    | none => none
    | some s1 => HubState.broadcastLoop roomID message clientList s1

/-- The `broadcast` case of `Hub.Run`: snapshot the room's members, then
deliver to each of them. -/
def HubState.broadcast (s : HubState) (message : BroadcastMessage) : Option HubState :=
  HubState.broadcastLoop message.RoomID message.Message (s.clientsOf message.RoomID) s

/-- `GetClientCount`. -/
def HubState.GetClientCount (s : HubState) (roomID : String) : Nat :=
  match mapGet s.rooms roomID with
  | some clients => clients.length
  | none => 0

/-- `GetAllRoomIDs`. -/
def HubState.GetAllRoomIDs (s : HubState) : List String :=
  s.rooms.map (fun e => e.1)

/-- `SendToPlayer`: the first member of the room, in `range` order, whose
PlayerID matches gets a non-blocking send, then the loop breaks. -/
def SendToPlayer (marshal : GameMessage → Option String) (s : HubState)
    (roomID playerID messageType : String) (payload : List (String × Value)) :
    Option HubState :=
  match marshal { MessageType := messageType, Payload := payload } with
  | none => some s
  | some messageJSON =>
    match (s.clientsOf roomID).find? (fun client => decide (client.PlayerID = playerID)) with
    | none => some s
    | some client =>
      match (s.send client).trySend messageJSON with
      | SendOutcome.panic => none
      | SendOutcome.sent ch => some { s with send := Function.update s.send client ch }
      | SendOutcome.full => some s

/-- `SendRoleToPlayer`. -/
def SendRoleToPlayer (marshal : GameMessage → Option String) (s : HubState) (roomID : String)
    (player : Player) : Option HubState :=
  SendToPlayer marshal s roomID player.ID "YOUR_ROLE"
    [("role", Value.str player.Role), ("name", Value.str player.Name)]

end handlers

/-- Three connections: two players of room AB12 and one of room CD34. -/
def clientA : Client := ⟨1, "AB12", "p1"⟩

/-- The second connection of room AB12. -/
def clientB : Client := ⟨2, "AB12", "p2"⟩

/-- The connection of room CD34. -/
def clientC : Client := ⟨3, "CD34", "p1"⟩

/-- The hub after the three connections registered. -/
def sampleHub : HubState :=
  ((NewHub.register clientA).register clientB).register clientC

/-- A channel of capacity 256 holding 256 messages. -/
def fullChan : Chan :=
  { buf := List.replicate 256 "tick", cap := 256, closed := false }

/-- The hub `sampleHub` with the queue of `clientA` saturated. -/
def saturatedHub : HubState :=
  { sampleHub with send := fun c => if c = clientA then fullChan else newSendChan }

/-! ## Draws of the shuffle and heartbeat constants -/

/-- A random source that yields `a` at loop index 3, `b` at loop index 2 and
`c` at loop index 1 of the shuffle of four roles. -/
def drawSource (a b c : Nat) : Nat → Nat :=
  fun i => if i = 3 then a else if i = 2 then b else c

/-- The role order AssignRoles uses when the three index draws of the shuffle
are `d`: first the draw for index 3, then for index 2, then for index 1. -/
def rolesOfDraws (d : Fin 4 × Fin 3 × Fin 2) : List String :=
  shuffledRoles (drawSource d.1 d.2.1 d.2.2)

namespace handlers

/-- `time.Second` as a `time.Duration`, a count of nanoseconds. -/
def second : Int := 1000000000

/-- The constant `writeWait` of websocket.go. -/
def writeWait : Int := 10 * second

/-- The constant `pongWait` of websocket.go. -/
def pongWait : Int := 60 * second

/-- The constant `pingPeriod` of websocket.go. -/
def pingPeriod : Int := (pongWait * 9) / 10

/-- The constant `maxMessageSize` of websocket.go. -/
def maxMessageSize : Int := 512

end handlers

/-- A room of three role holders and one bystander, in which two players hold
Raja. -/
def crowdedRoom : Room :=
  { ID := "JK90"
    Players := [⟨"p1", "Asha", "Raja", 1⟩, ⟨"p2", "Bala", "Mantri", 2⟩,
      ⟨"p3", "Chitra", "Chor", 3⟩, ⟨"p4", "Dev", "Sipahi", 4⟩, ⟨"p5", "Esha", "Raja", 5⟩,
      ⟨"p6", "Farid", "Player", 6⟩]
    Status := "GUESSING" }

/-! ## package handlers: the WebSocket endpoint -/

namespace handlers

/-- The record `WSMessage` of websocket.go (its field `Type` is `MessageType`
here). -/
structure WSMessage where
  MessageType : String
  PlayerID : String
  RoomID : String
  Data : List (String × Value)
  Timestamp : Int
  deriving DecidableEq, Repr

/-- One pass of the loop of `readPump` on a frame that was read: a frame that
does not decode is logged and skipped; a decoded one gets the connection's own
PlayerID and RoomID and the server clock, is marshalled and handed to
`hub.BroadcastToRoom` for the connection's room.  `unmarshal` stands for
`json.Unmarshal` into a WSMessage, `marshalWS` for `json.Marshal` of one (its
error is discarded by the code), `now` for `time.Now().Unix()`. -/
def relayFrame (unmarshal : String → Option WSMessage) (marshalWS : WSMessage → String)
    (c : Client) (now : Int) (message : String) : Option BroadcastMessage :=
  match unmarshal message with
  | none => none
  | some wsMsg =>
    let stamped : WSMessage :=
      { wsMsg with PlayerID := c.PlayerID, RoomID := c.RoomID, Timestamp := now }
    some { RoomID := c.RoomID, Message := marshalWS stamped }

/-- What a run of `readPump` hands to the hub: the relayed frames, then, from
the deferred function, the unregister request and the `player_left` notice. -/
structure PumpTrace where
  relayed : List BroadcastMessage
  unregistered : Client
  left : BroadcastMessage
  deriving DecidableEq, Repr

/-- `readPump` on the frames read before `ReadMessage` fails, each with the
clock value at its arrival; `leftAt` is the clock and `count` the value of
`GetClientCount` when the deferred function runs. -/
def readPump (unmarshal : String → Option WSMessage) (marshalWS : WSMessage → String)
    (c : Client) (frames : List (String × Int)) (leftAt : Int) (count : Nat) : PumpTrace :=
  { relayed := frames.filterMap (fun frame => relayFrame unmarshal marshalWS c frame.2 frame.1)
    unregistered := c
    left :=
      { RoomID := c.RoomID
        Message := marshalWS
          { MessageType := "player_left", PlayerID := c.PlayerID, RoomID := c.RoomID,
            Data := [("playerCount", Value.int count)], Timestamp := leftAt } } }

/-- What `HandleWebSocket` leaves behind: the status and error text written to
the response (101 once the connection is upgraded), the connection record it
created, the clients sent on `hub.register`, the messages put on the new
client's `Send` queue, and the requests handed to the hub for broadcast. -/
structure WsHandled where
  status : Nat
  body : String
  client : Option Client
  registered : List Client
  queued : List String
  broadcasts : List BroadcastMessage
  deriving DecidableEq, Repr

/-- The handler `HandleWebSocket` up to the start of the two pumps.  `roomID`
is the route variable and `playerID` the query parameter; `upgradeError` is
`none` when `upgrader.Upgrade` succeeds and the status the upgrader replied
with when it fails; `addr` is the address of the new client; `welcomeAt` and
`joinedAt` are the clock values and `count` the value of `GetClientCount` read
for the join notice. -/
def HandleWebSocket (marshalWS : WSMessage → String) (rm : RoomManager)
    (upgradeError : Option Nat) (addr : Nat) (welcomeAt joinedAt : Int) (count : Nat)
    (roomID playerID : String) : WsHandled :=
  if roomID = "" then ⟨400, "roomId is required", none, [], [], []⟩
  else if playerID = "" then ⟨400, "playerId query parameter is required", none, [], [], []⟩
  else
    match rm.GetRoom roomID with
    | none => ⟨404, "Room not found", none, [], [], []⟩
    | some _ =>
      match upgradeError with
      | some status => ⟨status, "", none, [], [], []⟩
      | none =>
        let client : Client := { addr := addr, RoomID := roomID, PlayerID := playerID }
        let welcomeMsg : WSMessage :=
          { MessageType := "connected", PlayerID := playerID, RoomID := roomID,
            Data := [("message", Value.str "Connected to room")], Timestamp := welcomeAt }
        let joinMsg : WSMessage :=
          { MessageType := "player_joined", PlayerID := playerID, RoomID := roomID,
            Data := [("playerCount", Value.int count)], Timestamp := joinedAt }
        ⟨101, "", some client, [client], [marshalWS welcomeMsg],
          [{ RoomID := roomID, Message := marshalWS joinMsg }]⟩

/-- A request served by one of the two room handlers. -/
inductive HandlerCall where
  | createRoom (now : String) (draw : Nat → Nat) (body : Option CreateRoomRequest)
  | joinRoom (now : String) (draw : Nat) (body : Option JoinRoomRequest)

/-- The registry after a request. -/
def HandlerCall.serve (marshal : GameMessage → Option String) (rm : RoomManager) :
    HandlerCall → RoomManager
  | HandlerCall.createRoom now draw body => (CreateRoom marshal rm now draw body).manager
  | HandlerCall.joinRoom now draw body => (JoinRoom marshal rm now draw body).manager

/-- The registry after a sequence of requests served one at a time, starting
from the empty registry. -/
def serveAll (marshal : GameMessage → Option String) (calls : List HandlerCall) : RoomManager :=
  calls.foldl (HandlerCall.serve marshal) NewRoomManager

end handlers

/-- A stand-in for `json.Unmarshal` in examples: two frames decode, to chat
messages that differ in the identifiers and the timestamp their sender put in. -/
def sampleUnmarshal (frame : String) : Option WSMessage :=
  if frame = "chat as mallory" then
    some { MessageType := "chat", PlayerID := "mallory", RoomID := "CD34", Data := [],
           Timestamp := 99 }
  else if frame = "chat as p1" then
    some { MessageType := "chat", PlayerID := "p1", RoomID := "AB12", Data := [],
           Timestamp := 0 }
  else none

/-- A stand-in for `json.Marshal` of a WSMessage in examples. -/
def sampleMarshalWS (m : WSMessage) : String :=
  m.MessageType ++ "|" ++ m.PlayerID ++ "|" ++ m.RoomID

/-- Every room of the registry has at most four players. -/
def AtMostFour (rm : RoomManager) : Prop :=
  ∀ code room, rm.GetRoom code = some room → room.Players.length ≤ 4

/-- A registry holding the full room `waitingRoom` under its code. -/
def fullRegistry : RoomManager :=
  { rooms := [("AB12", waitingRoom)] }

/-- One room creation followed by five join requests for the created room
(with these draws its code is 4BIP). -/
def sixRequests : List HandlerCall :=
  [HandlerCall.createRoom "20251103101500" (fun i => 7 * i + 30) (some ⟨"Asha"⟩),
    HandlerCall.joinRoom "20251103101501" 1 (some ⟨"4BIP", "Bala"⟩),
    HandlerCall.joinRoom "20251103101502" 2 (some ⟨"4BIP", "Chitra"⟩),
    HandlerCall.joinRoom "20251103101503" 3 (some ⟨"4BIP", "Dev"⟩),
    HandlerCall.joinRoom "20251103101504" 4 (some ⟨"4BIP", "Esha"⟩),
    HandlerCall.joinRoom "20251103101505" 5 (some ⟨"4BIP", "Farid"⟩)]

/-! ## Hub histories -/

namespace handlers

/-- What the hub loop receives on its three channels. -/
inductive HubEvent where
  | register (client : Client)
  | unregister (client : Client)
  | broadcast (message : BroadcastMessage)
  deriving DecidableEq, Repr

/-- One pass of the `select` of `Hub.Run`; `none` is a panic. -/
def HubState.step (s : HubState) : HubEvent → Option HubState
  | HubEvent.register client => some (s.register client)
  | HubEvent.unregister client => s.unregister client
  | HubEvent.broadcast message => s.broadcast message

/-- The hub loop over a sequence of received events. -/
def HubState.runHub : List HubEvent → HubState → Option HubState
  | [], s => some s
  | event :: events, s =>
    match s.step event with
    | none => none
    | some s1 => HubState.runHub events s1

/-- The clients sent on `hub.register` in a sequence of events, in order. -/
def registrations : List HubEvent → List Client
  | [] => []
  | HubEvent.register client :: events => client :: registrations events
  | _ :: events => registrations events

end handlers

/-- The hub state is sound when every connection set lists its members once
and every member is filed under its own RoomID with an open queue. -/
def handlers.HubState.Sound (s : HubState) : Prop :=
  ∀ roomID, (s.clientsOf roomID).Nodup ∧
    ∀ c ∈ s.clientsOf roomID, c.RoomID = roomID ∧ (s.send c).closed = false

/-- A hub whose only connection, `clientA` in room AB12, has a saturated
queue. -/
def lonelyHub : HubState :=
  { rooms := [("AB12", [clientA])], send := fun c => if c = clientA then fullChan else newSendChan }

/-- A history: two registrations in room AB12, one in room CD34, a broadcast,
and the second connection leaving. -/
def sampleEvents : List HubEvent :=
  [HubEvent.register clientA, HubEvent.register clientB, HubEvent.register clientC,
    HubEvent.broadcast ⟨"AB12", "hello"⟩, HubEvent.unregister clientB]

/-- One connection registers in room AB12 and is never read from while 257
broadcasts go to its room: 256 fill its queue, the last one finds it full. -/
def floodEvents : List HubEvent :=
  HubEvent.register clientA :: List.replicate 257 (HubEvent.broadcast ⟨"AB12", "tick"⟩)

/-- The same connection with 256 broadcasts, then leaving by unregister. -/
def leaveEvents : List HubEvent :=
  HubEvent.register clientA :: List.replicate 256 (HubEvent.broadcast ⟨"AB12", "tick"⟩) ++
    [HubEvent.unregister clientA]

/-! ## Shared lemmas -/

theorem shuffledRoles_perm (src : Nat → Nat) : (shuffledRoles src).Perm initialRoles := by
  have h3 : src 3 % 4 < 4 := Nat.mod_lt _ (by decide)
  have h2 : src 2 % 3 < 3 := Nat.mod_lt _ (by decide)
  have h1 : src 1 % 2 < 2 := Nat.mod_lt _ (by decide)
  simp only [shuffledRoles, Shuffle, initialRoles, List.length_cons, List.length_nil,
    shuffleLoop]
  generalize src 3 % 4 = a at h3
  generalize src 2 % 3 = b at h2
  generalize src 1 % 2 = c at h1
  interval_cases a <;> interval_cases b <;> interval_cases c <;> decide


theorem roles_of_mapIdx (ps : List Player) (roles : List String) (h : ps.length = roles.length) :
    (ps.mapIdx (fun i p => { p with Role := roles.getD i "" })).map (fun p => p.Role) = roles := by
  apply List.ext_getElem
  · simp [h]
  · intro n h1 h2
    simp only [List.length_map, List.length_mapIdx] at h1
    simp [List.getElem?_eq_getElem h2]

theorem assignRoles_roles (src : Nat → Nat) (room : Room) (h4 : room.Players.length = 4) :
    (AssignRoles src room).Players.map (fun p => p.Role) = shuffledRoles src ∧
      (AssignRoles src room).Status = "GUESSING" := by
  have hlen : (shuffledRoles src).length = 4 := (shuffledRoles_perm src).length_eq
  simp only [AssignRoles, Room.GetPlayers, h4, ne_eq, not_true_eq_false, if_false,
    Room.UpdatePlayersAndStatus, and_true]
  exact roles_of_mapIdx _ _ (by rw [h4, hlen])

/-! ### The search loop of ProcessGuess -/

theorem foldl_locate (ps : List Player) (h : Holders) :
    (ps.foldl locate h).mantri = lastWithRole "Mantri" ps h.mantri ∧
    (ps.foldl locate h).chor = lastWithRole "Chor" ps h.chor ∧
    (ps.foldl locate h).raja = lastWithRole "Raja" ps h.raja ∧
    (ps.foldl locate h).sipahi = lastWithRole "Sipahi" ps h.sipahi := by
  induction ps generalizing h with
  | nil => simp [lastWithRole]
  | cons p ps ih =>
    simp only [List.foldl_cons, lastWithRole]
    obtain ⟨h1, h2, h3, h4⟩ := ih (locate h p)
    rw [h1, h2, h3, h4]
    unfold locate
    split_ifs with a b c d <;> simp_all

theorem lastWithRole_absent (role : String) (ps : List Player) (acc : Option Player)
    (h : ∀ p ∈ ps, p.Role ≠ role) : lastWithRole role ps acc = acc := by
  induction ps generalizing acc with
  | nil => rfl
  | cons p ps ih =>
    have hp : p.Role ≠ role := h p (List.mem_cons_self _ _)
    simp only [lastWithRole, hp, if_false]
    exact ih acc (fun q hq => h q (List.mem_cons_of_mem _ hq))

theorem lastWithRole_present (role : String) (ps : List Player) (acc : Option Player)
    (h : ∃ p ∈ ps, p.Role = role) :
    ∃ q ∈ ps, q.Role = role ∧ lastWithRole role ps acc = some q := by
  induction ps generalizing acc with
  | nil => simp at h
  | cons p ps ih =>
    by_cases hrest : ∃ q ∈ ps, q.Role = role
    · obtain ⟨q, hq, hqr, hlast⟩ := ih (if p.Role = role then some p else acc) hrest
      exact ⟨q, List.mem_cons_of_mem _ hq, hqr, by simpa [lastWithRole] using hlast⟩
    · have hnone : ∀ q ∈ ps, q.Role ≠ role := fun q hq hqr => hrest ⟨q, hq, hqr⟩
      obtain ⟨q, hq, hqr⟩ := h
      rcases List.mem_cons.mp hq with rfl | hq
      · refine ⟨q, List.mem_cons_self _ _, hqr, ?_⟩
        simp [lastWithRole, hqr, lastWithRole_absent role ps _ hnone]
      · exact absurd hqr (hnone q hq)

theorem roleComplete_holder (room : Room) (hrc : RoleComplete room) (role : String)
    (hrole : role ∈ ["Raja", "Mantri", "Chor", "Sipahi"]) :
    ∃ p ∈ room.Players, p.Role = role := by
  have hmem : role ∈ room.Players.map (fun p => p.Role) := hrc.mem_iff.mpr hrole
  obtain ⟨p, hp, hpr⟩ := List.mem_map.mp hmem
  exact ⟨p, hp, hpr⟩

theorem roleComplete_unique (room : Room) (hrc : RoleComplete room) (a b : Player)
    (ha : a ∈ room.Players) (hb : b ∈ room.Players) (hab : a.Role = b.Role) : a = b := by
  have hnd : (room.Players.map (fun p => p.Role)).Nodup := hrc.nodup_iff.mpr (by decide)
  exact List.inj_on_of_nodup_map hnd ha hb hab

theorem roleComplete_last (room : Room) (hrc : RoleComplete room) (m : Player)
    (hm : m ∈ room.Players) : lastWithRole m.Role room.Players none = some m := by
  obtain ⟨q, hq, hqr, hlast⟩ := lastWithRole_present m.Role room.Players none ⟨m, hm, rfl⟩
  rw [hlast, roleComplete_unique room hrc q m hq hm hqr]

theorem findHolders_roleComplete (room : Room) (hrc : RoleComplete room) (m c : Player)
    (hm : m ∈ room.Players) (hmr : m.Role = "Mantri")
    (hc : c ∈ room.Players) (hcr : c.Role = "Chor") :
    ∃ r s, findHolders room.Players =
      { mantri := some m, chor := some c, raja := some r, sipahi := some s } := by
  obtain ⟨r, hr, hrr⟩ := roleComplete_holder room hrc "Raja" (by simp)
  obtain ⟨s, hs, hsr⟩ := roleComplete_holder room hrc "Sipahi" (by simp)
  obtain ⟨h1, h2, h3, h4⟩ := foldl_locate room.Players
    { mantri := none, chor := none, raja := none, sipahi := none }
  have e1 := roleComplete_last room hrc m hm
  have e2 := roleComplete_last room hrc c hc
  have e3 := roleComplete_last room hrc r hr
  have e4 := roleComplete_last room hrc s hs
  rw [hmr] at e1; rw [hcr] at e2; rw [hrr] at e3; rw [hsr] at e4
  refine ⟨r, s, ?_⟩
  unfold findHolders
  cases hh : List.foldl locate
    { mantri := none, chor := none, raja := none, sipahi := none } room.Players
  rw [hh] at h1 h2 h3 h4
  simp_all

theorem processGuess_of_holders (room : Room) (m c r s : Player) (acting guessed : String)
    (h : findHolders room.Players =
      { mantri := some m, chor := some c, raja := some r, sipahi := some s }) :
    ProcessGuess room acting guessed =
      if m.ID ≠ acting then (room, Except.error "only the Mantri can make a guess")
      else
        (room.UpdatePlayersAndStatus
            (room.Players.map (rescore (decide (guessed = c.ID)))) "FINISHED",
          Except.ok
            { Correct := decide (guessed = c.ID)
              MantriID := m.ID
              ChorID := guessed
              ActualChorID := c.ID
              UpdatedScores :=
                collectScores (room.Players.map (rescore (decide (guessed = c.ID)))) }) := by
  simp [ProcessGuess, Room.GetPlayers, h]

/-! ### The scoring loop of ProcessGuess -/

theorem rescore_frame (b : Bool) (p : Player) :
    (rescore b p).ID = p.ID ∧ (rescore b p).Name = p.Name ∧ (rescore b p).Role = p.Role := by
  unfold rescore
  split_ifs <;> simp

theorem rescore_score (b : Bool) (p : Player)
    (h : p.Role ∈ ["Raja", "Mantri", "Chor", "Sipahi"]) :
    (rescore b p).Score = tableScore b p.Role := by
  simp only [List.mem_cons, List.mem_singleton, List.not_mem_nil, or_false] at h
  unfold rescore tableScore
  rcases h with h | h | h | h <;> rw [h] <;> cases b <;> simp

theorem roleComplete_role_mem (room : Room) (hrc : RoleComplete room) (p : Player)
    (hp : p ∈ room.Players) : p.Role ∈ ["Raja", "Mantri", "Chor", "Sipahi"] :=
  hrc.mem_iff.mp (List.mem_map.mpr ⟨p, hp, rfl⟩)

theorem rescore_sum (room : Room) (hrc : RoleComplete room) (b : Bool) :
    ((room.Players.map (rescore b)).map (fun p => p.Score)).sum = 2300 := by
  have h1 : (room.Players.map (rescore b)).map (fun p => p.Score) =
      (room.Players.map (fun p => p.Role)).map (tableScore b) := by
    rw [List.map_map, List.map_map]
    apply List.map_congr_left
    intro p hp
    exact rescore_score b p (roleComplete_role_mem room hrc p hp)
  rw [h1, (List.Perm.map (tableScore b) hrc).sum_eq]
  cases b <;> decide

/-! ### Maps -/

theorem mapGet_mapSet {β : Type} (m : List (String × β)) (k key : String) (v : β) :
    mapGet (mapSet m k v) key = if key = k then some v else mapGet m key := by
  induction m with
  | nil => simp [mapSet, mapGet]
  | cons e m ih =>
    obtain ⟨k0, v0⟩ := e
    by_cases h : k = k0
    · subst h
      by_cases h2 : key = k <;> simp [mapSet, mapGet, h2]
    · by_cases h2 : key = k
      · subst h2
        simp [mapSet, mapGet, h, ih]
      · by_cases h3 : key = k0
        · subst h3
          simp [mapSet, mapGet, h, h2]
        · simp [mapSet, mapGet, h, h2, h3, ih]

theorem collectScores_concat (ps : List Player) (p : Player) :
    collectScores (ps ++ [p]) = mapSet (collectScores ps) p.ID p.Score := by
  simp [collectScores, List.foldl_append]

theorem mapGet_collectScores (ps : List Player) (id : String) :
    mapGet (collectScores ps) id =
      ((ps.filter (fun p => decide (p.ID = id))).getLast?).map (fun p => p.Score) := by
  induction ps using List.reverseRecOn with
  | nil => simp [collectScores, mapGet]
  | append_singleton ps p ih =>
    rw [collectScores_concat, mapGet_mapSet, ih, List.filter_append]
    by_cases h : id = p.ID
    · subst h
      simp [List.filter_cons]
    · have h2 : ¬ p.ID = id := fun e => h e.symm
      simp [List.filter_cons, h, h2]

theorem filter_id_last (ps : List Player) (hnd : (ps.map (fun p => p.ID)).Nodup) (p : Player)
    (hp : p ∈ ps) : (ps.filter (fun q => decide (q.ID = p.ID))).getLast? = some p := by
  have hmem : p ∈ ps.filter (fun q => decide (q.ID = p.ID)) := by
    simp [List.mem_filter, hp]
  cases hlast : (ps.filter (fun q => decide (q.ID = p.ID))).getLast? with
  | none =>
    rw [List.getLast?_eq_none_iff] at hlast
    rw [hlast] at hmem
    simp at hmem
  | some q =>
    have hq : q ∈ ps.filter (fun q => decide (q.ID = p.ID)) := List.mem_of_mem_getLast? hlast
    rw [List.mem_filter] at hq
    have hid : q.ID = p.ID := by simpa using hq.2
    rw [List.inj_on_of_nodup_map hnd hq.1 hp hid]

/-! ### The registry -/

theorem apply_keeps_absent (rm : RoomManager) (op : RegistryOp) (code : String)
    (hop : code ∉ createdCodes [op]) (habs : rm.GetRoom code = none) :
    (RegistryOp.apply rm op).GetRoom code = none := by
  cases op with
  | create id =>
    have hne : code ≠ id := by simpa [createdCodes] using hop
    simp only [RegistryOp.apply, RoomManager.CreateRoom, RoomManager.GetRoom, mapGet_mapSet,
      hne, if_false]
    exact habs
  | mutate id f =>
    simp only [RegistryOp.apply]
    cases hget : rm.GetRoom id with
    | none => exact habs
    | some room =>
      have hne : code ≠ id := by
        intro e
        rw [e, hget] at habs
        exact Option.noConfusion habs
      simp only [RoomManager.GetRoom, mapGet_mapSet, hne, if_false]
      exact habs

theorem foldl_keeps_absent (ops : List RegistryOp) (rm : RoomManager) (code : String)
    (hops : code ∉ createdCodes ops) (habs : rm.GetRoom code = none) :
    (ops.foldl RegistryOp.apply rm).GetRoom code = none := by
  induction ops generalizing rm with
  | nil => exact habs
  | cons op ops ih =>
    have h1 : code ∉ createdCodes [op] ∧ code ∉ createdCodes ops := by
      cases op <;> simp_all [createdCodes]
    exact ih (RegistryOp.apply rm op) h1.2 (apply_keeps_absent rm op code h1.1 habs)

/-! ## The claims -/

/-- C1: for a room with exactly four players and every outcome of the shuffle,
after AssignRoles each of Raja, Mantri, Chor and Sipahi is held by exactly one
player and the status is GUESSING. -/
theorem assignRoles_each_role_once (src : Nat → Nat) (room : Room)
    (h4 : room.Players.length = 4) :
    (∀ role ∈ ["Raja", "Mantri", "Chor", "Sipahi"],
        (AssignRoles src room).Players.countP (fun p => decide (p.Role = role)) = 1) ∧
      (AssignRoles src room).Status = "GUESSING" := by
  obtain ⟨hroles, hstatus⟩ := assignRoles_roles src room h4
  refine ⟨?_, hstatus⟩
  intro role hrole
  have hc : (AssignRoles src room).Players.countP (fun p => decide (p.Role = role)) =
      ((AssignRoles src room).Players.map (fun p => p.Role)).countP
        (fun r => decide (r = role)) := by
    rw [List.countP_map]; rfl
  rw [hc, hroles, (shuffledRoles_perm src).countP_eq]
  simp only [List.mem_cons, List.mem_singleton, List.not_mem_nil, or_false] at hrole
  rcases hrole with rfl | rfl | rfl | rfl <;> decide

theorem assignRoles_each_role_once_witness :
    waitingRoom.Players.length = 4 ∧
      ((∀ role ∈ ["Raja", "Mantri", "Chor", "Sipahi"],
          (AssignRoles (fun _ => 5) waitingRoom).Players.countP
            (fun p => decide (p.Role = role)) = 1) ∧
        (AssignRoles (fun _ => 5) waitingRoom).Status = "GUESSING") :=
  ⟨by decide, assignRoles_each_role_once (fun _ => 5) waitingRoom (by decide)⟩

/-- C2: for a room whose player count is not 4, AssignRoles is a no-op: the
room after the call, players with their roles and status included, is the room
before it. -/
theorem assignRoles_noop (src : Nat → Nat) (room : Room) (h : room.Players.length ≠ 4) :
    AssignRoles src room = room := by
  simp [AssignRoles, Room.GetPlayers, h]

theorem assignRoles_noop_witness :
    trioRoom.Players.length ≠ 4 ∧ AssignRoles (fun n => n) trioRoom = trioRoom :=
  ⟨by decide, assignRoles_noop (fun n => n) trioRoom (by decide)⟩

/-- C3: on a role-complete room, whatever the prior scores and the guessed ID,
ProcessGuess called with the ID of the player holding Mantri succeeds and the
committed scores add up to 2300. -/
theorem processGuess_total_2300 (room : Room) (hrc : RoleComplete room) (m : Player)
    (hm : m ∈ room.Players) (hmr : m.Role = "Mantri") (guessed : String) :
    (∃ res, (ProcessGuess room m.ID guessed).2 = Except.ok res) ∧
      ((ProcessGuess room m.ID guessed).1.Players.map (fun p => p.Score)).sum = 2300 := by
  obtain ⟨c, hc, hcr⟩ := roleComplete_holder room hrc "Chor" (by simp)
  obtain ⟨r, s, hh⟩ := findHolders_roleComplete room hrc m c hm hmr hc hcr
  rw [processGuess_of_holders room m c r s m.ID guessed hh]
  simp only [ne_eq, not_true_eq_false, if_false, Room.UpdatePlayersAndStatus]
  exact ⟨⟨_, rfl⟩, rescore_sum room hrc _⟩

theorem processGuess_total_2300_witness :
    RoleComplete guessingRoom ∧
      ((∃ res, (ProcessGuess guessingRoom "p2" "p4").2 = Except.ok res) ∧
        ((ProcessGuess guessingRoom "p2" "p4").1.Players.map (fun p => p.Score)).sum = 2300) :=
  ⟨by decide,
    processGuess_total_2300 guessingRoom (by decide) ⟨"p2", "Bala", "Mantri", 0⟩ (by decide)
      rfl "p4"⟩

/-- C4: on a role-complete room, after a successful ProcessGuess the status is
FINISHED, the players keep their order, IDs, names and roles, and every score
follows the table: Raja 1000, Sipahi 500, Mantri 800 and Chor 0 when the
guessed ID is the ID of the Chor holder, Mantri 0 and Chor 800 otherwise. -/
theorem processGuess_score_table (room : Room) (hrc : RoleComplete room) (c : Player)
    (hc : c ∈ room.Players) (hcr : c.Role = "Chor") (acting guessed : String)
    (res : GuessResult) (hok : (ProcessGuess room acting guessed).2 = Except.ok res) :
    (ProcessGuess room acting guessed).1.Status = "FINISHED" ∧
      (ProcessGuess room acting guessed).1.Players.map (fun p => (p.ID, p.Name, p.Role)) =
        room.Players.map (fun p => (p.ID, p.Name, p.Role)) ∧
      ∀ p ∈ (ProcessGuess room acting guessed).1.Players,
        (p.Role = "Raja" ∧ p.Score = 1000) ∨
        (p.Role = "Sipahi" ∧ p.Score = 500) ∨
        (p.Role = "Mantri" ∧ p.Score = if guessed = c.ID then 800 else 0) ∨
        (p.Role = "Chor" ∧ p.Score = if guessed = c.ID then 0 else 800) := by
  obtain ⟨m, hm, hmr⟩ := roleComplete_holder room hrc "Mantri" (by simp)
  obtain ⟨r, s, hh⟩ := findHolders_roleComplete room hrc m c hm hmr hc hcr
  rw [processGuess_of_holders room m c r s acting guessed hh] at hok ⊢
  by_cases hact : m.ID = acting
  · simp only [hact, ne_eq, not_true_eq_false, if_false, Room.UpdatePlayersAndStatus]
    refine ⟨trivial, ?_, ?_⟩
    · rw [List.map_map]
      apply List.map_congr_left
      intro p _
      obtain ⟨h1, h2, h3⟩ := rescore_frame (decide (guessed = c.ID)) p
      simp [h1, h2, h3]
    · intro p hp
      obtain ⟨q, hq, rfl⟩ := List.mem_map.mp hp
      have hrole := roleComplete_role_mem room hrc q hq
      have hscore := rescore_score (decide (guessed = c.ID)) q hrole
      obtain ⟨_, _, h3⟩ := rescore_frame (decide (guessed = c.ID)) q
      rw [h3, hscore]
      simp only [List.mem_cons, List.mem_singleton, List.not_mem_nil, or_false] at hrole
      unfold tableScore
      rcases hrole with h | h | h | h <;> rw [h] <;> simp
  · simp [hact] at hok

theorem processGuess_score_table_witness :
    RoleComplete guessingRoom ∧
      (ProcessGuess guessingRoom "p2" "p2").1.Status = "FINISHED" ∧
      (ProcessGuess guessingRoom "p2" "p2").1.Players.map (fun p => (p.Role, p.Score)) =
        [("Raja", 1000), ("Mantri", 0), ("Chor", 800), ("Sipahi", 500)] :=
  ⟨by decide,
    (processGuess_score_table guessingRoom (by decide) ⟨"p3", "Chitra", "Chor", -3⟩
      (by decide) rfl "p2" "p2"
      { Correct := false, MantriID := "p2", ChorID := "p2", ActualChorID := "p3",
        UpdatedScores := [("p1", 1000), ("p2", 0), ("p3", 800), ("p4", 500)] }
      rfl).1,
    by decide⟩

/-- C5, refuted as stated: in the role-complete room `twinRoom` the Raja and the
Mantri carry the same ID "x"; ProcessGuess succeeds, commits 1000 for the Raja
and 800 for the Mantri, and UpdatedScores holds the single entry 800 for "x",
which is not the Raja's committed score. -/
theorem processGuess_scores_twin_ids :
    RoleComplete twinRoom ∧
      (ProcessGuess twinRoom "x" "c").1.GetPlayers.map (fun p => (p.ID, p.Role, p.Score)) =
        [("x", "Raja", 1000), ("x", "Mantri", 800), ("c", "Chor", 0), ("s", "Sipahi", 500)] ∧
      (ProcessGuess twinRoom "x" "c").2.toOption.map
          (fun res => (res.UpdatedScores, mapGet res.UpdatedScores "x")) =
        some ([("x", 800), ("c", 0), ("s", 500)], some 800) := by
  refine ⟨by decide, by decide, by decide⟩

/-- C5, amended: on a role-complete room a successful ProcessGuess returns
Correct true exactly when the guessed ID is the ID of the Chor holder,
ActualChorID equal to that ID, and UpdatedScores mapping every ID to the
committed score of the last player in the sequence carrying it (the scores
GetPlayers returns afterwards); so when the player IDs are pairwise distinct
it maps every player's ID to that player's own committed score. -/
theorem processGuess_outcome (room : Room) (hrc : RoleComplete room) (c : Player)
    (hc : c ∈ room.Players) (hcr : c.Role = "Chor") (acting guessed : String)
    (res : GuessResult) (hok : (ProcessGuess room acting guessed).2 = Except.ok res) :
    (res.Correct = true ↔ guessed = c.ID) ∧
      res.ActualChorID = c.ID ∧
      (∀ id, mapGet res.UpdatedScores id =
        (((ProcessGuess room acting guessed).1.GetPlayers.filter
          (fun p => decide (p.ID = id))).getLast?).map (fun p => p.Score)) ∧
      ((room.Players.map (fun p => p.ID)).Nodup →
        ∀ p ∈ (ProcessGuess room acting guessed).1.GetPlayers,
          mapGet res.UpdatedScores p.ID = some p.Score) := by
  obtain ⟨m, hm, hmr⟩ := roleComplete_holder room hrc "Mantri" (by simp)
  obtain ⟨r, s, hh⟩ := findHolders_roleComplete room hrc m c hm hmr hc hcr
  rw [processGuess_of_holders room m c r s acting guessed hh] at hok ⊢
  by_cases hact : m.ID = acting
  · simp only [hact, ne_eq, not_true_eq_false, if_false, Except.ok.injEq] at hok
    simp only [hact, ne_eq, not_true_eq_false, if_false, Room.UpdatePlayersAndStatus,
      Room.GetPlayers]
    subst hok
    refine ⟨by simp, rfl, fun id => mapGet_collectScores _ id, ?_⟩
    intro hnd p hp
    have hids : (room.Players.map (rescore (decide (guessed = c.ID)))).map (fun p => p.ID) =
        room.Players.map (fun p => p.ID) := by
      rw [List.map_map]
      apply List.map_congr_left
      intro q _
      exact (rescore_frame _ q).1
    rw [← hids] at hnd
    simp only [mapGet_collectScores, filter_id_last _ hnd p hp, Option.map_some']
  · simp [hact] at hok

theorem processGuess_outcome_witness :
    RoleComplete guessingRoom ∧
      (guessingRoom.Players.map (fun p => p.ID)).Nodup ∧
      ∀ p ∈ (ProcessGuess guessingRoom "p2" "p3").1.GetPlayers,
        mapGet [("p1", (1000 : Int)), ("p2", 800), ("p3", 0), ("p4", 500)] p.ID =
          some p.Score :=
  ⟨by decide, by decide,
    (processGuess_outcome guessingRoom (by decide) ⟨"p3", "Chitra", "Chor", -3⟩ (by decide)
      rfl "p2" "p3"
      { Correct := true, MantriID := "p2", ChorID := "p3", ActualChorID := "p3",
        UpdatedScores := [("p1", 1000), ("p2", 800), ("p3", 0), ("p4", 500)] }
      rfl).2.2.2 (by decide)⟩

/-- C6: on a role-complete room, for every acting ID other than the ID of the
Mantri holder, ProcessGuess returns no result and the error "only the Mantri
can make a guess", and the room (players, roles, scores, status) is unchanged. -/
theorem processGuess_unauthorized (room : Room) (hrc : RoleComplete room) (m : Player)
    (hm : m ∈ room.Players) (hmr : m.Role = "Mantri") (acting guessed : String)
    (hne : acting ≠ m.ID) :
    ProcessGuess room acting guessed =
      (room, Except.error "only the Mantri can make a guess") := by
  obtain ⟨c, hc, hcr⟩ := roleComplete_holder room hrc "Chor" (by simp)
  obtain ⟨r, s, hh⟩ := findHolders_roleComplete room hrc m c hm hmr hc hcr
  rw [processGuess_of_holders room m c r s acting guessed hh]
  have hne2 : m.ID ≠ acting := fun e => hne e.symm
  simp [hne2]

theorem processGuess_unauthorized_witness :
    RoleComplete guessingRoom ∧
      ProcessGuess guessingRoom "p1" "p3" =
        (guessingRoom, Except.error "only the Mantri can make a guess") :=
  ⟨by decide,
    processGuess_unauthorized guessingRoom (by decide) ⟨"p2", "Bala", "Mantri", 0⟩
      (by decide) rfl "p1" "p3" (by decide)⟩

/-- C7: when one of Raja, Mantri, Chor, Sipahi is held by no player, then for
every acting and accused ID ProcessGuess returns no result and the error "room
does not have all required roles assigned", and the room is unchanged; the
acting ID is not looked at, so this check comes before the Mantri check. -/
theorem processGuess_roles_missing (room : Room) (acting guessed : String) (role : String)
    (hrole : role ∈ ["Raja", "Mantri", "Chor", "Sipahi"])
    (h : ∀ p ∈ room.Players, p.Role ≠ role) :
    ProcessGuess room acting guessed =
      (room, Except.error "room does not have all required roles assigned") := by
  obtain ⟨h1, h2, h3, h4⟩ := foldl_locate room.Players
    { mantri := none, chor := none, raja := none, sipahi := none }
  have hnone := lastWithRole_absent role room.Players none h
  simp only [List.mem_cons, List.mem_singleton, List.not_mem_nil, or_false] at hrole
  unfold ProcessGuess findHolders
  simp only [Room.GetPlayers]
  simp only at h1 h2 h3 h4
  rcases hrole with rfl | rfl | rfl | rfl
  · rw [hnone] at h3
    split <;> simp_all
  · rw [hnone] at h1
    split <;> simp_all
  · rw [hnone] at h2
    split <;> simp_all
  · rw [hnone] at h4
    split <;> simp_all

theorem processGuess_roles_missing_witness :
    (∀ p ∈ waitingRoom.Players, p.Role ≠ "Mantri") ∧
      ProcessGuess waitingRoom "p1" "p2" =
        (waitingRoom, Except.error "room does not have all required roles assigned") :=
  ⟨by decide, processGuess_roles_missing waitingRoom "p1" "p2" "Mantri" (by decide) (by decide)⟩

/-- C8: in the registry built by any history of operations, GetRoom on a code
that CreateRoom was never called with returns nil; and on every registry,
CreateRoom(code) followed by GetRoom(code) returns the created room, whose ID
is code, which has zero players and status WAITING. -/
theorem registry_create_then_get (ops : List RegistryOp) (code : String)
    (hnew : code ∉ createdCodes ops) (rm : RoomManager) :
    (runOps ops).GetRoom code = none ∧
      (rm.CreateRoom code).1.GetRoom code = some (rm.CreateRoom code).2 ∧
      (rm.CreateRoom code).2.ID = code ∧
      (rm.CreateRoom code).2.GetPlayers.length = 0 ∧
      (rm.CreateRoom code).2.GetStatus = "WAITING" := by
  refine ⟨foldl_keeps_absent ops NewRoomManager code hnew rfl, ?_, rfl, rfl, rfl⟩
  simp [RoomManager.CreateRoom, RoomManager.GetRoom, mapGet_mapSet]

theorem registry_create_then_get_witness :
    "ZZ99" ∉ createdCodes joinedHistory ∧
      (runOps joinedHistory).GetRoom "ZZ99" = none ∧
      ((runOps joinedHistory).CreateRoom "ZZ99").1.GetRoom "ZZ99" =
        some { ID := "ZZ99", Players := [], Status := "WAITING" } :=
  ⟨by decide,
    (registry_create_then_get joinedHistory "ZZ99" (by decide) (runOps joinedHistory)).1,
    (registry_create_then_get joinedHistory "ZZ99" (by decide) (runOps joinedHistory)).2.1⟩

/-- C9, refuted as stated: the registry built by `joinedHistory` holds under
AB12 a room with one player; after CreateRoom is called again with AB12,
GetRoom returns an empty WAITING room and the earlier room is gone. -/
theorem createRoom_overwrites_joined :
    (runOps joinedHistory).GetRoom "AB12" =
        some { ID := "AB12", Players := [⟨"p1", "Asha", "Admin", 0⟩], Status := "WAITING" } ∧
      ((runOps joinedHistory).CreateRoom "AB12").1.GetRoom "AB12" =
        some { ID := "AB12", Players := [], Status := "WAITING" } ∧
      ((runOps joinedHistory).CreateRoom "AB12").1.GetRoom "AB12" ≠
        (runOps joinedHistory).GetRoom "AB12" := by
  refine ⟨by decide, by decide, by decide⟩

/-- C9, amended: CreateRoom always replaces. On a registry that already holds a
room under a code, after CreateRoom is called again with that code GetRoom
returns a fresh room with that ID, no players and status WAITING, which is
not the earlier room whenever that one had a player; the rooms stored under
every other code are untouched. -/
theorem createRoom_replaces (rm : RoomManager) (code : String) (old : Room)
    (hold : rm.GetRoom code = some old) :
    (rm.CreateRoom code).1.GetRoom code =
        some { ID := code, Players := [], Status := "WAITING" } ∧
      (old.Players ≠ [] → (rm.CreateRoom code).1.GetRoom code ≠ rm.GetRoom code) ∧
      ∀ other, other ≠ code → (rm.CreateRoom code).1.GetRoom other = rm.GetRoom other := by
  have hget : (rm.CreateRoom code).1.GetRoom code =
      some { ID := code, Players := [], Status := "WAITING" } := by
    simp [RoomManager.CreateRoom, RoomManager.GetRoom, mapGet_mapSet]
  refine ⟨hget, ?_, ?_⟩
  · intro hne heq
    rw [hget, hold] at heq
    have h2 : old.Players = [] := by
      rw [← Option.some.inj heq]
    exact hne h2
  · intro other hother
    simp [RoomManager.CreateRoom, RoomManager.GetRoom, mapGet_mapSet, hother]

theorem createRoom_replaces_witness :
    (runOps joinedHistory).GetRoom "AB12" =
        some { ID := "AB12", Players := [⟨"p1", "Asha", "Admin", 0⟩], Status := "WAITING" } ∧
      ((runOps joinedHistory).CreateRoom "AB12").1.GetRoom "AB12" =
        some { ID := "AB12", Players := [], Status := "WAITING" } :=
  ⟨by decide,
    (createRoom_replaces (runOps joinedHistory) "AB12"
      { ID := "AB12", Players := [⟨"p1", "Asha", "Admin", 0⟩], Status := "WAITING" }
      (by decide)).1⟩

/-- C10, refuted as stated: `waitingRoom` already holds four players, and
AddPlayer still appends a fifth. -/
theorem addPlayer_fifth_player :
    waitingRoom.Players.length = 4 ∧
      (waitingRoom.AddPlayer ⟨"p5", "Esha", "Player", 0⟩).Players.length = 5 ∧
      (waitingRoom.AddPlayer ⟨"p5", "Esha", "Player", 0⟩).Players ≠ waitingRoom.Players := by
  refine ⟨by decide, by decide, by decide⟩

/-- C10, amended: AddPlayer appends unconditionally. For every room, whatever
its size, AddPlayer puts the player at the end of the sequence and leaves ID
and status alone, so after a sequence of AddPlayer calls the room holds its
earlier players followed by all the added ones; the room itself sets no limit
of four. -/
theorem addPlayer_appends (room : Room) (player : Player) (more : List Player) :
    (room.AddPlayer player).Players = room.Players ++ [player] ∧
      (room.AddPlayer player).ID = room.ID ∧
      (room.AddPlayer player).Status = room.Status ∧
      (more.foldl Room.AddPlayer room).Players = room.Players ++ more ∧
      (more.foldl Room.AddPlayer room).Players.length = room.Players.length + more.length := by
  have hfold : ∀ (ps : List Player) (r : Room),
      (ps.foldl Room.AddPlayer r).Players = r.Players ++ ps := by
    intro ps
    induction ps with
    | nil => intro r; simp
    | cons p ps ih => intro r; simp [List.foldl_cons, ih, Room.AddPlayer]
  refine ⟨rfl, rfl, rfl, hfold more room, ?_⟩
  rw [hfold more room, List.length_append]

/-! ### Room histories -/

theorem foldl_addPlayer_players (ps : List Player) (r : Room) :
    (ps.foldl Room.AddPlayer r).Players = r.Players ++ ps ∧
      (ps.foldl Room.AddPlayer r).Status = r.Status ∧
      (ps.foldl Room.AddPlayer r).ID = r.ID := by
  induction ps generalizing r with
  | nil => simp
  | cons p ps ih =>
    obtain ⟨h1, h2, h3⟩ := ih (r.AddPlayer p)
    rw [List.foldl_cons, h1, h2, h3]
    simp [Room.AddPlayer]

theorem processGuess_room_cases (room : Room) (acting guessed : String) :
    (ProcessGuess room acting guessed).1 = room ∨
      (ProcessGuess room acting guessed).1.Status = "FINISHED" := by
  unfold ProcessGuess
  simp only [Room.GetPlayers]
  split
  · split
    · exact Or.inl rfl
    · exact Or.inr rfl
  · exact Or.inl rfl

theorem roleComplete_count (room : Room) (hrc : RoleComplete room) (role : String)
    (hrole : role ∈ ["Raja", "Mantri", "Chor", "Sipahi"]) :
    room.Players.countP (fun p => decide (p.Role = role)) = 1 := by
  have hc : room.Players.countP (fun p => decide (p.Role = role)) =
      (room.Players.map (fun p => p.Role)).countP (fun r => decide (r = role)) := by
    rw [List.countP_map]; rfl
  rw [hc, List.Perm.countP_eq _ hrc]
  simp only [List.mem_cons, List.mem_singleton, List.not_mem_nil, or_false] at hrole
  rcases hrole with rfl | rfl | rfl | rfl <;> decide

theorem guessingComplete_run (r : Room) (call : RoomCall) (hinv : GuessingComplete r)
    (hgate : joinsGated r [call] = true) : GuessingComplete (RoomCall.run r call) := by
  cases call with
  | addPlayer player =>
    intro hs role hrole
    have hs0 : r.Status = "GUESSING" := hs
    have hnot : player.Role ∉ ["Raja", "Mantri", "Chor", "Sipahi"] := by
      simp only [joinsGated, Bool.and_true, decide_eq_true_eq] at hgate
      exact hgate hs0
    have hne : ¬ player.Role = role := fun e => hnot (e ▸ hrole)
    simp only [RoomCall.run, Room.AddPlayer, List.countP_append, hinv hs0 role hrole]
    simp [List.countP_cons, hne]
  | getPlayers => exact hinv
  | getStatus => exact hinv
  | assignRoles src =>
    intro hs
    simp only [RoomCall.run] at hs ⊢
    by_cases h : r.Players.length = 4
    · have hrc : RoleComplete (AssignRoles src r) := by
        unfold RoleComplete
        rw [(assignRoles_roles src r h).1]
        exact shuffledRoles_perm src
      exact roleComplete_count _ hrc
    · have hsame : AssignRoles src r = r := by simp [AssignRoles, Room.GetPlayers, h]
      rw [hsame] at hs ⊢
      exact hinv hs
  | processGuess a g =>
    intro hs
    simp only [RoomCall.run] at hs ⊢
    rcases processGuess_room_cases r a g with h | h
    · rw [h] at hs ⊢
      exact hinv hs
    · rw [h] at hs
      exact absurd hs (by decide)

theorem guessingComplete_runCalls (calls : List RoomCall) (r : Room) (hinv : GuessingComplete r)
    (hgate : joinsGated r calls = true) : GuessingComplete (runCalls r calls) := by
  induction calls generalizing r with
  | nil => exact hinv
  | cons call calls ih =>
    have hsplit : joinsGated r [call] = true ∧ joinsGated (RoomCall.run r call) calls = true := by
      cases call with
      | addPlayer player =>
        simp only [joinsGated, Bool.and_eq_true, Bool.and_true] at hgate ⊢
        exact ⟨hgate.1, hgate.2⟩
      | getPlayers => exact ⟨rfl, hgate⟩
      | getStatus => exact ⟨rfl, hgate⟩
      | assignRoles src => exact ⟨rfl, hgate⟩
      | processGuess a g => exact ⟨rfl, hgate⟩
    exact ih (RoomCall.run r call) (guessingComplete_run r call hinv hsplit.1) hsplit.2

/-- C11: for a freshly created room and every sequence of players, after the
AddPlayer calls in that order GetPlayers returns exactly that sequence, every
field intact (status and ID are those of the fresh room), and a call of
GetPlayers or GetStatus leaves the room as it was. -/
theorem join_order_preserved (rm : RoomManager) (code : String) (ps : List Player) :
    (ps.foldl Room.AddPlayer (rm.CreateRoom code).2).GetPlayers = ps ∧
      (ps.foldl Room.AddPlayer (rm.CreateRoom code).2).GetStatus = "WAITING" ∧
      (ps.foldl Room.AddPlayer (rm.CreateRoom code).2).ID = code ∧
      ∀ r : Room, RoomCall.run r RoomCall.getPlayers = r ∧
        RoomCall.run r RoomCall.getStatus = r := by
  obtain ⟨h1, h2, h3⟩ := foldl_addPlayer_players ps (rm.CreateRoom code).2
  refine ⟨?_, ?_, ?_, fun r => ⟨rfl, rfl⟩⟩
  · rw [Room.GetPlayers, h1]
    simp [RoomManager.CreateRoom]
  · rw [Room.GetStatus, h2]
    rfl
  · rw [h3]
    rfl

/-- C13, refuted as stated: four joins, AssignRoles, then AddPlayer of a fifth
player whose record says Raja; the status is still GUESSING and two players
hold Raja. -/
theorem late_join_two_rajas :
    (runCalls (freshRoom "AB12") lateJoinCalls).Status = "GUESSING" ∧
      (runCalls (freshRoom "AB12") lateJoinCalls).Players.map (fun p => p.Role) =
        ["Mantri", "Chor", "Sipahi", "Raja", "Raja"] ∧
      (runCalls (freshRoom "AB12") lateJoinCalls).Players.countP
        (fun p => decide (p.Role = "Raja")) = 2 ∧
      joinsGated (freshRoom "AB12") lateJoinCalls = false := by
  refine ⟨by decide, by decide, by decide, by decide⟩

/-- C13, amended: in every room state reached from a freshly created room by a
sequence of AddPlayer, GetPlayers, GetStatus, AssignRoles and ProcessGuess
calls in which no player whose record already carries one of the four roles
is added to a room whose status is GUESSING, whenever the status is GUESSING
exactly one player holds each of Raja, Mantri, Chor and Sipahi. -/
theorem guessing_roles_once (code : String) (calls : List RoomCall)
    (hgate : joinsGated (freshRoom code) calls = true)
    (hs : (runCalls (freshRoom code) calls).Status = "GUESSING") :
    ∀ role ∈ ["Raja", "Mantri", "Chor", "Sipahi"],
      (runCalls (freshRoom code) calls).Players.countP
        (fun p => decide (p.Role = role)) = 1 := by
  have hfresh : GuessingComplete (freshRoom code) := by
    intro h
    simp [freshRoom] at h
  exact guessingComplete_runCalls calls _ hfresh hgate hs

theorem guessing_roles_once_witness :
    joinsGated (freshRoom "AB12") bystanderJoinCalls = true ∧
      (runCalls (freshRoom "AB12") bystanderJoinCalls).Status = "GUESSING" ∧
      (runCalls (freshRoom "AB12") bystanderJoinCalls).Players.map (fun p => p.Role) =
        ["Mantri", "Chor", "Sipahi", "Raja", "Player"] ∧
      ∀ role ∈ ["Raja", "Mantri", "Chor", "Sipahi"],
        (runCalls (freshRoom "AB12") bystanderJoinCalls).Players.countP
          (fun p => decide (p.Role = role)) = 1 :=
  ⟨by decide, by decide, by decide,
    guessing_roles_once "AB12" bystanderJoinCalls (by decide) (by decide)⟩

theorem joinRoom_eq (marshal : GameMessage → Option String) (rm : RoomManager) (now : String)
    (draw : Nat) (req : JoinRoomRequest) (room : Room)
    (hfields : req.RoomID ≠ "" ∧ req.PlayerName ≠ "")
    (hroom : rm.GetRoom req.RoomID = some room) (hlt : room.Players.length < 4) :
    JoinRoom marshal rm now draw (some req) =
      ⟨{ rooms := mapSet rm.rooms req.RoomID
            (room.AddPlayer ⟨generatePlayerID now draw, req.PlayerName, "Player", 0⟩) },
        200, Body.joined "Successfully joined room" req.RoomID,
        BroadcastPlayerJoined marshal req.RoomID req.PlayerName (generatePlayerID now draw)⟩ := by
  have hnot : ¬ 4 ≤ room.Players.length := Nat.not_le.mpr hlt
  simp [JoinRoom, hfields.1, hfields.2, hroom, Room.GetPlayers, hnot]

/-- C12, refuted as stated: two JoinRoom requests served in the same clock
second with the same random draw are both accepted and leave the room with two
players carrying the same ID. -/
theorem joinRoom_repeats_player_id :
    twiceJoined.status = 200 ∧
      (twiceJoined.manager.GetRoom "AB12").map (fun r => r.Players.map (fun p => (p.ID, p.Name))) =
        some [("20251103101500-*", "Asha"), ("20251103101500-*", "Bala")] := by
  refine ⟨by decide, by decide⟩

/-- C12, amended: an addition keeps the player IDs of a room pairwise distinct
exactly when the added ID is not yet in the room. AddPlayer appends whatever it
is given; an accepted JoinRoom appends a player whose ID is
generatePlayerID(clock, draw), the same string whenever clock second and draw
repeat; the CreateRoom handler stores a room with the single admin player. -/
theorem player_ids_unique_iff_fresh (marshal : GameMessage → Option String)
    (rm : RoomManager) (now : String) (draw : Nat) (draws : Nat → Nat) (room : Room)
    (p : Player) (req : JoinRoomRequest) (creq : CreateRoomRequest)
    (hfields : req.RoomID ≠ "" ∧ req.PlayerName ≠ "")
    (hroom : rm.GetRoom req.RoomID = some room) (hlt : room.Players.length < 4)
    (hname : creq.PlayerName ≠ "") :
    (((room.AddPlayer p).Players.map (fun q => q.ID)).Nodup ↔
        (room.Players.map (fun q => q.ID)).Nodup ∧ p.ID ∉ room.Players.map (fun q => q.ID)) ∧
      (JoinRoom marshal rm now draw (some req)).manager.GetRoom req.RoomID =
        some (room.AddPlayer ⟨generatePlayerID now draw, req.PlayerName, "Player", 0⟩) ∧
      (CreateRoom marshal rm now draws (some creq)).manager.GetRoom (generateRoomID draws) =
        some { ID := generateRoomID draws
               Players := [⟨generatePlayerID now (draws 4), creq.PlayerName, "Admin", 0⟩]
               Status := "WAITING" } := by
  refine ⟨?_, ?_, ?_⟩
  · simp only [Room.AddPlayer, List.map_append, List.map_cons, List.map_nil]
    rw [List.nodup_append]
    simp [List.Disjoint]
  · rw [joinRoom_eq marshal rm now draw req room hfields hroom hlt]
    simp [RoomManager.GetRoom, mapGet_mapSet]
  · simp [CreateRoom, hname, RoomManager.GetRoom, RoomManager.CreateRoom, mapGet_mapSet,
      Room.AddPlayer]

theorem player_ids_unique_iff_fresh_witness :
    (JoinRoom sampleMarshal (NewRoomManager.CreateRoom "AB12").1 "20251103101500" 42
        (some ⟨"AB12", "Asha"⟩)).manager.GetRoom "AB12" =
      some ((freshRoom "AB12").AddPlayer ⟨generatePlayerID "20251103101500" 42, "Asha", "Player", 0⟩) :=
  (player_ids_unique_iff_fresh sampleMarshal (NewRoomManager.CreateRoom "AB12").1
    "20251103101500" 42 (fun n => n) (freshRoom "AB12") ⟨"p9", "Isha", "Player", 0⟩
    ⟨"AB12", "Asha"⟩ ⟨"Asha"⟩ (by decide) (by decide) (by decide) (by decide)).2.1

theorem mapGet_mapDelete {β : Type} (m : List (String × β)) (k key : String) :
    mapGet (mapDelete m k) key = if key = k then none else mapGet m key := by
  induction m with
  | nil => simp [mapDelete, mapGet]
  | cons e m ih =>
    obtain ⟨k0, v0⟩ := e
    by_cases h0 : k = k0
    · subst h0
      by_cases h2 : key = k
      · subst h2
        simpa [mapDelete] using ih
      · simp [mapDelete, mapGet, h2, ih]
    · by_cases h2 : key = k0
      · subst h2
        have h3 : ¬ key = k := fun e => h0 e.symm
        simp [mapDelete, mapGet, h0, h3]
      · simp [mapDelete, mapGet, h0, h2, ih]

theorem mapDelete_keys {β : Type} (m : List (String × β)) (k : String) :
    k ∉ (mapDelete m k).map (fun e => e.1) := by
  induction m with
  | nil => simp [mapDelete]
  | cons e m ih =>
    obtain ⟨k0, v0⟩ := e
    by_cases h0 : k = k0
    · subst h0
      simp only [mapDelete, if_true]
      exact ih
    · simp only [mapDelete, h0, if_false, List.map_cons, List.mem_cons, not_or]
      exact ⟨fun h => h, ih⟩

theorem mem_setAdd (clients : List Client) (c x : Client) :
    x ∈ setAdd clients c ↔ x ∈ clients ∨ x = c := by
  unfold setAdd
  split_ifs with h
  · constructor
    · exact Or.inl
    · rintro (h1 | rfl)
      · exact h1
      · exact h
  · simp

theorem length_setAdd (clients : List Client) (c : Client) (h : c ∉ clients) :
    (setAdd clients c).length = clients.length + 1 := by
  simp [setAdd, h]

theorem mem_setDelete (clients : List Client) (c x : Client) :
    x ∈ setDelete clients c ↔ x ∈ clients ∧ x ≠ c := by
  simp [setDelete, List.mem_filter]

theorem setDelete_eq_nil (clients : List Client) (c : Client) (h : ∀ x ∈ clients, x = c) :
    setDelete clients c = [] := by
  simp only [setDelete, List.filter_eq_nil_iff]
  intro x hx
  simp [h x hx]

theorem clientsOf_register (s : HubState) (c : Client) :
    (s.register c).clientsOf c.RoomID = setAdd (s.clientsOf c.RoomID) c ∧
      mapGet (s.register c).rooms c.RoomID = some (setAdd (s.clientsOf c.RoomID) c) ∧
      (∀ roomID, roomID ≠ c.RoomID →
        mapGet (s.register c).rooms roomID = mapGet s.rooms roomID) ∧
      (s.register c).send = s.send := by
  unfold HubState.register HubState.clientsOf
  cases h : mapGet s.rooms c.RoomID with
  | none =>
    refine ⟨by simp [mapGet_mapSet], by simp [mapGet_mapSet], ?_, rfl⟩
    intro roomID hne
    simp [mapGet_mapSet, hne]
  | some clients =>
    refine ⟨by simp [mapGet_mapSet], by simp [mapGet_mapSet], ?_, rfl⟩
    intro roomID hne
    simp [mapGet_mapSet, hne]

/-- C16: the register step of the hub loop. For every hub state and client c,
afterwards the set of c.RoomID exists and holds c next to its earlier members,
the set of every other room is as before, no queue is touched, and
GetClientCount(c.RoomID) has grown by one when c was not a member before. -/
theorem register_step (s : HubState) (c : Client) :
    c ∈ (s.register c).clientsOf c.RoomID ∧
      mapGet (s.register c).rooms c.RoomID ≠ none ∧
      (∀ x, x ∈ (s.register c).clientsOf c.RoomID ↔ x ∈ s.clientsOf c.RoomID ∨ x = c) ∧
      (∀ roomID, roomID ≠ c.RoomID →
        mapGet (s.register c).rooms roomID = mapGet s.rooms roomID) ∧
      (s.register c).send = s.send ∧
      (c ∉ s.clientsOf c.RoomID →
        (s.register c).GetClientCount c.RoomID = s.GetClientCount c.RoomID + 1) := by
  obtain ⟨h1, h2, h3, h4⟩ := clientsOf_register s c
  refine ⟨?_, ?_, ?_, h3, h4, ?_⟩
  · rw [h1, mem_setAdd]
    exact Or.inr rfl
  · rw [h2]
    exact Option.some_ne_none _
  · intro x
    rw [h1, mem_setAdd]
  · intro hnew
    unfold HubState.GetClientCount
    rw [h2]
    simp only [length_setAdd _ c hnew]
    unfold HubState.clientsOf
    cases mapGet s.rooms c.RoomID <;> simp

theorem register_step_witness :
    (⟨4, "AB12", "p3"⟩ : Client) ∉ sampleHub.clientsOf "AB12" ∧
      (sampleHub.register ⟨4, "AB12", "p3"⟩).GetClientCount "AB12" = 2 + 1 :=
  ⟨by decide, (register_step sampleHub ⟨4, "AB12", "p3"⟩).2.2.2.2.2 (by decide)⟩

theorem clientsOf_mem_iff (s : HubState) (roomID : String) (c : Client) :
    c ∈ s.clientsOf roomID ↔ ∃ clients, mapGet s.rooms roomID = some clients ∧ c ∈ clients := by
  unfold HubState.clientsOf
  cases mapGet s.rooms roomID <;> simp

theorem unregister_absent (s : HubState) (c : Client) (h : c ∉ s.clientsOf c.RoomID) :
    s.unregister c = some s := by
  unfold HubState.unregister
  cases hget : mapGet s.rooms c.RoomID with
  | none => rfl
  | some clients =>
    have hnot : c ∉ clients := fun hc => h ((clientsOf_mem_iff s c.RoomID c).mpr ⟨clients, hget, hc⟩)
    simp [hnot]

theorem unregister_member (s : HubState) (c : Client) (clients : List Client)
    (hget : mapGet s.rooms c.RoomID = some clients) (hmem : c ∈ clients)
    (hopen : (s.send c).closed = false) :
    s.unregister c =
      some { rooms :=
               if (setDelete clients c).length = 0 then
                 mapDelete (mapSet s.rooms c.RoomID (setDelete clients c)) c.RoomID
               else mapSet s.rooms c.RoomID (setDelete clients c),
             send := Function.update s.send c { s.send c with closed := true } } := by
  unfold HubState.unregister
  simp only [hget, hmem, if_true, Chan.close, hopen, Bool.false_eq_true, if_false]
  split_ifs <;> rfl

/-- C17: the unregister step of the hub loop. When c is a member of the set of
c.RoomID (its queue being open, as for every registered client), the step
removes c and nobody else, closes c's queue and no other, leaves other rooms
alone, and deletes the room's entry when c was its only member, so that
GetClientCount gives 0 and GetAllRoomIDs omits the room; when c is not a
member, the hub state, c's queue included, is unchanged. -/
theorem unregister_step (s : HubState) (c : Client) :
    (c ∈ s.clientsOf c.RoomID → (s.send c).closed = false →
      ∃ s1, s.unregister c = some s1 ∧
        c ∉ s1.clientsOf c.RoomID ∧
        (∀ x, x ∈ s1.clientsOf c.RoomID ↔ x ∈ s.clientsOf c.RoomID ∧ x ≠ c) ∧
        s1.send c = { s.send c with closed := true } ∧
        (∀ x, x ≠ c → s1.send x = s.send x) ∧
        (∀ roomID, roomID ≠ c.RoomID → mapGet s1.rooms roomID = mapGet s.rooms roomID) ∧
        ((∀ x ∈ s.clientsOf c.RoomID, x = c) →
          mapGet s1.rooms c.RoomID = none ∧ s1.GetClientCount c.RoomID = 0 ∧
            c.RoomID ∉ s1.GetAllRoomIDs)) ∧
      (c ∉ s.clientsOf c.RoomID → s.unregister c = some s) := by
  refine ⟨?_, unregister_absent s c⟩
  intro hmem hopen
  obtain ⟨clients, hget, hc⟩ := (clientsOf_mem_iff s c.RoomID c).mp hmem
  have hcl : s.clientsOf c.RoomID = clients := by simp [HubState.clientsOf, hget]
  refine ⟨_, unregister_member s c clients hget hc hopen, ?_⟩
  have hmemiff : ∀ x, x ∈ HubState.clientsOf
      { rooms :=
          if (setDelete clients c).length = 0 then
            mapDelete (mapSet s.rooms c.RoomID (setDelete clients c)) c.RoomID
          else mapSet s.rooms c.RoomID (setDelete clients c),
        send := Function.update s.send c { s.send c with closed := true } } c.RoomID ↔
      x ∈ clients ∧ x ≠ c := by
    intro x
    unfold HubState.clientsOf
    by_cases hlen : (setDelete clients c).length = 0
    · have hnil : setDelete clients c = [] := List.length_eq_zero.mp hlen
      have hnone : ¬ (x ∈ clients ∧ x ≠ c) := by
        rw [← mem_setDelete, hnil]
        exact List.not_mem_nil x
      simp only [hlen, if_true, mapGet_mapDelete, Option.getD_none, List.not_mem_nil,
        false_iff]
      exact hnone
    · simp only [hlen, if_false, mapGet_mapSet, if_true, Option.getD_some]
      exact mem_setDelete clients c x
  refine ⟨?_, ?_, ?_, ?_, ?_, ?_⟩
  · rw [hmemiff]
    exact fun h => h.2 rfl
  · intro x
    rw [hmemiff, hcl]
  · simp
  · intro x hx
    simp [Function.update, hx]
  · intro roomID hne
    by_cases hlen : (setDelete clients c).length = 0
    · simp [hlen, mapGet_mapDelete, mapGet_mapSet, hne]
    · simp [hlen, mapGet_mapSet, hne]
  · intro honly
    rw [hcl] at honly
    have hnil : setDelete clients c = [] := setDelete_eq_nil clients c honly
    simp only [hnil, List.length_nil, if_true, HubState.GetClientCount, HubState.GetAllRoomIDs,
      mapGet_mapDelete]
    exact ⟨trivial, trivial, mapDelete_keys _ _⟩

theorem unregister_step_witness :
    clientC ∈ sampleHub.clientsOf "CD34" ∧
      ∃ s1, sampleHub.unregister clientC = some s1 ∧ s1.GetAllRoomIDs = ["AB12"] ∧
        s1.GetClientCount "CD34" = 0 ∧ (s1.send clientC).closed = true := by
  refine ⟨by decide, ?_⟩
  obtain ⟨s1, h1, _, _, h4, _, _, h7⟩ :=
    (unregister_step sampleHub clientC).1 (by decide) (by decide)
  refine ⟨s1, h1, ?_, (h7 (by decide)).2.1, by rw [h4]⟩
  have hs : sampleHub.unregister clientC =
      some { rooms := [("AB12", [clientA, clientB])],
             send := Function.update sampleHub.send clientC
               { sampleHub.send clientC with closed := true } } := by
    rfl
  rw [hs] at h1
  rw [← Option.some.inj h1]
  rfl

theorem broadcastTo_spec (roomID message : String) (s : HubState) (c : Client)
    (hopen : (s.send c).closed = false) :
    ∃ s1, s.broadcastTo roomID message c = some s1 ∧
      (s1.send c =
        if (s.send c).buf.length < (s.send c).cap then
          { s.send c with buf := (s.send c).buf ++ [message] }
        else { s.send c with closed := true }) ∧
      (∀ x, x ≠ c → s1.send x = s.send x) ∧
      (∀ x, x ∈ s1.clientsOf roomID ↔
        x ∈ s.clientsOf roomID ∧ ¬ (x = c ∧ ¬ (s.send c).buf.length < (s.send c).cap)) ∧
      (∀ other, other ≠ roomID → mapGet s1.rooms other = mapGet s.rooms other) := by
  unfold HubState.broadcastTo Chan.trySend Chan.close
  simp only [hopen, Bool.false_eq_true, if_false]
  by_cases hroom : (s.send c).buf.length < (s.send c).cap
  · simp only [hroom, if_true]
    refine ⟨_, rfl, by simp, ?_, ?_, fun _ _ => rfl⟩
    · intro x hx
      simp [Function.update, hx]
    · intro x
      simp [HubState.clientsOf, hroom]
  · simp only [hroom, if_false]
    cases hget : mapGet s.rooms roomID with
    | none =>
      refine ⟨_, rfl, by simp, ?_, ?_, fun _ _ => rfl⟩
      · intro x hx
        simp [Function.update, hx]
      · intro x
        simp [HubState.clientsOf, hget]
    | some roomClients =>
      refine ⟨_, rfl, by simp, ?_, ?_, ?_⟩
      · intro x hx
        simp [Function.update, hx]
      · intro x
        simp [HubState.clientsOf, hget, mapGet_mapSet, mem_setDelete]
      · intro other hne
        simp [mapGet_mapSet, hne]

theorem broadcastLoop_spec (roomID message : String) (l : List Client) (s : HubState)
    (hnd : l.Nodup) (hopen : ∀ c ∈ l, (s.send c).closed = false) :
    ∃ s2, HubState.broadcastLoop roomID message l s = some s2 ∧
      (∀ c ∈ l, s2.send c =
        if (s.send c).buf.length < (s.send c).cap then
          { s.send c with buf := (s.send c).buf ++ [message] }
        else { s.send c with closed := true }) ∧
      (∀ x, x ∉ l → s2.send x = s.send x) ∧
      (∀ x, x ∈ s2.clientsOf roomID ↔
        x ∈ s.clientsOf roomID ∧ ¬ (x ∈ l ∧ ¬ (s.send x).buf.length < (s.send x).cap)) ∧
      (∀ other, other ≠ roomID → mapGet s2.rooms other = mapGet s.rooms other) := by
  induction l generalizing s with
  | nil =>
    exact ⟨s, rfl, by simp, fun _ _ => rfl, by simp, fun _ _ => rfl⟩
  | cons c rest ih =>
    obtain ⟨hc, hrest⟩ := List.nodup_cons.mp hnd
    obtain ⟨s1, hstep, hsc, hframe, hmem, hother⟩ :=
      broadcastTo_spec roomID message s c (hopen c (List.mem_cons_self _ _))
    have hne : ∀ x ∈ rest, x ≠ c := fun x hx e => hc (e ▸ hx)
    have hopen1 : ∀ x ∈ rest, (s1.send x).closed = false := by
      intro x hx
      rw [hframe x (hne x hx)]
      exact hopen x (List.mem_cons_of_mem _ hx)
    obtain ⟨s2, hloop, hsend, hframe2, hmem2, hother2⟩ := ih s1 hrest hopen1
    refine ⟨s2, ?_, ?_, ?_, ?_, ?_⟩
    · simp only [HubState.broadcastLoop, hstep]
      exact hloop
    · intro x hx
      rcases List.mem_cons.mp hx with rfl | hx
      · rw [hframe2 x hc, hsc]
      · rw [hsend x hx, hframe x (hne x hx)]
    · intro x hx
      have h1 : x ≠ c := fun e => hx (e ▸ List.mem_cons_self _ _)
      have h2 : x ∉ rest := fun h => hx (List.mem_cons_of_mem _ h)
      rw [hframe2 x h2, hframe x h1]
    · intro x
      rw [hmem2, hmem]
      by_cases hxc : x = c
      · subst hxc
        simp [hc]
      · rw [hframe x hxc]
        simp [hxc]
    · intro other hne2
      rw [hother2 other hne2, hother other hne2]

/-- C18: the broadcast step of the hub loop. For every hub state (the members'
sets listed without repetition, their queues open), room and message, the step
completes; every connection of the room whose queue was not full has the
message appended at the tail of its queue and stays in the set; every
connection whose queue was full is closed and absent from the set afterwards;
so a full queue on one connection does not keep the message from the others.
Queues of connections outside the room and the sets of other rooms are
untouched, and the queue HandleWebSocket creates has capacity 256. -/
theorem broadcast_step (s : HubState) (roomID message : String)
    (hnd : (s.clientsOf roomID).Nodup)
    (hopen : ∀ c ∈ s.clientsOf roomID, (s.send c).closed = false) :
    ∃ s2, s.broadcast ⟨roomID, message⟩ = some s2 ∧
      (∀ c ∈ s.clientsOf roomID, (s.send c).buf.length < (s.send c).cap →
        s2.send c = { s.send c with buf := (s.send c).buf ++ [message] } ∧
          c ∈ s2.clientsOf roomID) ∧
      (∀ c ∈ s.clientsOf roomID, ¬ (s.send c).buf.length < (s.send c).cap →
        c ∉ s2.clientsOf roomID ∧ s2.send c = { s.send c with closed := true }) ∧
      (∀ x, x ∉ s.clientsOf roomID → s2.send x = s.send x) ∧
      (∀ other, other ≠ roomID → mapGet s2.rooms other = mapGet s.rooms other) ∧
      newSendChan.cap = 256 := by
  obtain ⟨s2, hrun, hsend, hframe, hmem, hother⟩ :=
    broadcastLoop_spec roomID message (s.clientsOf roomID) s hnd hopen
  refine ⟨s2, hrun, ?_, ?_, hframe, hother, rfl⟩
  · intro c hc hroom
    refine ⟨by rw [hsend c hc, if_pos hroom], ?_⟩
    rw [hmem]
    exact ⟨hc, fun h => h.2 hroom⟩
  · intro c hc hfull
    refine ⟨?_, by rw [hsend c hc, if_neg hfull]⟩
    rw [hmem]
    exact fun h => h.2 ⟨hc, hfull⟩

set_option maxRecDepth 20000 in
theorem broadcast_step_witness :
    (saturatedHub.clientsOf "AB12").Nodup ∧
      (∀ c ∈ saturatedHub.clientsOf "AB12", (saturatedHub.send c).closed = false) ∧
      ∃ s2, saturatedHub.broadcast ⟨"AB12", "hello"⟩ = some s2 ∧
        (s2.send clientB).buf = ["hello"] ∧ clientA ∉ s2.clientsOf "AB12" := by
  obtain ⟨s2, h1, h2, h3, _⟩ :=
    broadcast_step saturatedHub "AB12" "hello" (by decide) (by decide)
  refine ⟨by decide, by decide, s2, h1, ?_, (h3 clientA (by decide) (by decide)).1⟩
  rw [(h2 clientB (by decide) (by decide)).1]
  rfl

theorem sendToPlayer_spec (marshal : GameMessage → Option String) (s : HubState)
    (roomID playerID messageType : String) (payload : List (String × Value))
    (hopen : ∀ c ∈ s.clientsOf roomID, (s.send c).closed = false) :
    ∃ s1, SendToPlayer marshal s roomID playerID messageType payload = some s1 ∧
      s1.rooms = s.rooms ∧
      (s1.send = s.send ∨
        ∃ c messageJSON, c ∈ s.clientsOf roomID ∧ c.PlayerID = playerID ∧
          marshal { MessageType := messageType, Payload := payload } = some messageJSON ∧
          s1.send = Function.update s.send c
            { s.send c with buf := (s.send c).buf ++ [messageJSON] }) := by
  unfold SendToPlayer
  cases hjs : marshal { MessageType := messageType, Payload := payload } with
  | none => exact ⟨s, rfl, rfl, Or.inl rfl⟩
  | some messageJSON =>
    cases hfind : (s.clientsOf roomID).find? (fun client => decide (client.PlayerID = playerID)) with
    | none => exact ⟨s, rfl, rfl, Or.inl rfl⟩
    | some c =>
      have hc : c ∈ s.clientsOf roomID := List.mem_of_find?_eq_some hfind
      have hid : c.PlayerID = playerID := by
        have := List.find?_some hfind
        simpa using this
      have hno : ¬ (s.send c).closed = true := by simp [hopen c hc]
      simp only [Chan.trySend, if_neg hno]
      by_cases hroom : (s.send c).buf.length < (s.send c).cap
      · simp only [hroom, if_true]
        exact ⟨_, rfl, rfl, Or.inr ⟨c, messageJSON, hc, hid, rfl, rfl⟩⟩
      · simp only [hroom, if_false]
        exact ⟨s, rfl, rfl, Or.inl rfl⟩

theorem sendToPlayer_frame (marshal : GameMessage → Option String) (s : HubState)
    (roomID playerID messageType : String) (payload : List (String × Value))
    (hopen : ∀ c ∈ s.clientsOf roomID, (s.send c).closed = false) :
    ∃ s1, SendToPlayer marshal s roomID playerID messageType payload = some s1 ∧
      ∀ x, (x.PlayerID ≠ playerID ∨ x ∉ s.clientsOf roomID) → s1.send x = s.send x := by
  obtain ⟨s1, h1, _, h3⟩ := sendToPlayer_spec marshal s roomID playerID messageType payload hopen
  refine ⟨s1, h1, ?_⟩
  intro x hx
  rcases h3 with h3 | ⟨c, _, hc, hid, _, hsend⟩
  · rw [h3]
  · have hne : x ≠ c := by
      rintro rfl
      rcases hx with hx | hx
      · exact hx hid
      · exact hx hc
    rw [hsend]
    simp [Function.update, hne]

/-- C19: SendToPlayer is private. For every hub state (the queues of the
room's members open), room, player ID and message, the call returns, leaves
the connection sets alone, and either changes no queue or appends the
marshalled message to the queue of exactly one connection, which is a member
of the given room's set and carries the given player ID; the queue of every
connection with another PlayerID, or outside that set, is unchanged. So
SendRoleToPlayer changes no queue of a connection registered under another
player's ID. -/
theorem sendToPlayer_private (marshal : GameMessage → Option String) (s : HubState)
    (roomID playerID messageType : String) (payload : List (String × Value))
    (hopen : ∀ c ∈ s.clientsOf roomID, (s.send c).closed = false) :
    (∃ s1, SendToPlayer marshal s roomID playerID messageType payload = some s1 ∧
      s1.rooms = s.rooms ∧
      (s1.send = s.send ∨
        ∃ c messageJSON, c ∈ s.clientsOf roomID ∧ c.PlayerID = playerID ∧
          marshal { MessageType := messageType, Payload := payload } = some messageJSON ∧
          s1.send = Function.update s.send c
            { s.send c with buf := (s.send c).buf ++ [messageJSON] }) ∧
      ∀ x, (x.PlayerID ≠ playerID ∨ x ∉ s.clientsOf roomID) → s1.send x = s.send x) ∧
      ∀ player : Player, ∃ s2, SendRoleToPlayer marshal s roomID player = some s2 ∧
        ∀ x, x.PlayerID ≠ player.ID → s2.send x = s.send x := by
  constructor
  · obtain ⟨s1, h1, h2, h3⟩ :=
      sendToPlayer_spec marshal s roomID playerID messageType payload hopen
    obtain ⟨s1b, h1b, h4⟩ :=
      sendToPlayer_frame marshal s roomID playerID messageType payload hopen
    have hsame : s1b = s1 := Option.some.inj (h1b.symm.trans h1)
    subst hsame
    exact ⟨s1b, h1, h2, h3, h4⟩
  · intro player
    obtain ⟨s2, h1, h2⟩ := sendToPlayer_frame marshal s roomID player.ID "YOUR_ROLE"
      [("role", Value.str player.Role), ("name", Value.str player.Name)] hopen
    exact ⟨s2, h1, fun x hx => h2 x (Or.inl hx)⟩

theorem sendToPlayer_private_witness :
    (∀ c ∈ sampleHub.clientsOf "AB12", (sampleHub.send c).closed = false) ∧
      ∃ s1, SendToPlayer sampleMarshal sampleHub "AB12" "p1" "YOUR_ROLE" [] = some s1 ∧
        s1.send clientB = sampleHub.send clientB ∧ s1.send clientC = sampleHub.send clientC := by
  obtain ⟨s1, h1, _, _, h4⟩ :=
    (sendToPlayer_private sampleMarshal sampleHub "AB12" "p1" "YOUR_ROLE" [] (by decide)).1
  exact ⟨by decide, s1, h1, h4 clientB (Or.inl (by decide)), h4 clientC (Or.inr (by decide))⟩

set_option maxRecDepth 20000 in
/-- C20, refuted as stated: in `saturatedHub` the queue of `clientA`, the
connection of player p1 in room AB12, holds 256 messages. SendToPlayer for p1
leaves `clientA` in the room's set with its queue open and as long as before,
whereas a broadcast to the room closes that queue and removes `clientA`. -/
theorem sendToPlayer_keeps_saturated :
    (SendToPlayer sampleMarshal saturatedHub "AB12" "p1" "YOUR_ROLE" []).map
        (fun s => (s.clientsOf "AB12", (s.send clientA).closed, (s.send clientA).buf.length)) =
      some ([clientA, clientB], false, 256) ∧
    (saturatedHub.broadcast ⟨"AB12", "YOUR_ROLE"⟩).map
        (fun s => (s.clientsOf "AB12", (s.send clientA).closed, (s.send clientA).buf.length)) =
      some ([clientB], true, 256) := by
  refine ⟨by decide, by decide⟩

/-- C20, amended: SendToPlayer does not apply the drop policy of broadcast. When
the matching connection's queue is full (and open), the message is not
enqueued, the call returns, and the hub state is exactly as before: the
connection stays in its room's set and its queue stays open; the delivery step
of broadcast on the same connection closes the queue and removes the
connection from the set. -/
theorem sendToPlayer_full_queue (marshal : GameMessage → Option String) (s : HubState)
    (roomID playerID messageType : String) (payload : List (String × Value))
    (messageJSON : String) (c : Client)
    (hjs : marshal { MessageType := messageType, Payload := payload } = some messageJSON)
    (hfind : (s.clientsOf roomID).find? (fun client => decide (client.PlayerID = playerID)) =
      some c)
    (hopen : (s.send c).closed = false)
    (hfull : ¬ (s.send c).buf.length < (s.send c).cap) :
    SendToPlayer marshal s roomID playerID messageType payload = some s ∧
      ∃ s1, s.broadcastTo roomID messageJSON c = some s1 ∧
        c ∉ s1.clientsOf roomID ∧ s1.send c = { s.send c with closed := true } := by
  constructor
  · simp [SendToPlayer, hjs, hfind, Chan.trySend, hopen, hfull]
  · obtain ⟨s1, h1, h2, _, h4, _⟩ := broadcastTo_spec roomID messageJSON s c hopen
    refine ⟨s1, h1, ?_, by rw [h2, if_neg hfull]⟩
    rw [h4]
    exact fun h => h.2 ⟨rfl, hfull⟩

set_option maxRecDepth 20000 in
theorem sendToPlayer_full_queue_witness :
    (saturatedHub.send clientA).closed = false ∧
      ¬ (saturatedHub.send clientA).buf.length < (saturatedHub.send clientA).cap ∧
      (SendToPlayer sampleMarshal saturatedHub "AB12" "p1" "YOUR_ROLE" []).map
          (fun s => s.rooms) = some saturatedHub.rooms := by
  refine ⟨by decide, by decide, ?_⟩
  rw [(sendToPlayer_full_queue sampleMarshal saturatedHub "AB12" "p1" "YOUR_ROLE" [] "YOUR_ROLE"
    clientA rfl (by decide) (by decide) (by decide)).1]
  rfl

/-! ### Shuffle draws -/

theorem drawSource_mod (src : Nat → Nat) :
    shuffledRoles src = shuffledRoles (drawSource (src 3 % 4) (src 2 % 3) (src 1 % 2)) := by
  simp [shuffledRoles, Shuffle, initialRoles, shuffleLoop, drawSource]

theorem perm_initial_cases (roles : List String)
    (h : roles.Perm ["Raja", "Mantri", "Chor", "Sipahi"]) :
    ∃ d : Fin 4 × Fin 3 × Fin 2, rolesOfDraws d = roles ∧
      ∀ e : Fin 4 × Fin 3 × Fin 2, rolesOfDraws e = roles → e = d := by
  have hlen : roles.length = 4 := h.length_eq
  match roles, hlen with
  | [w, x, y, z], _ =>
    have hw : w ∈ ["Raja", "Mantri", "Chor", "Sipahi"] := h.subset (by simp)
    have hx : x ∈ ["Raja", "Mantri", "Chor", "Sipahi"] := h.subset (by simp)
    have hy : y ∈ ["Raja", "Mantri", "Chor", "Sipahi"] := h.subset (by simp)
    have hz : z ∈ ["Raja", "Mantri", "Chor", "Sipahi"] := h.subset (by simp)
    simp only [List.mem_cons, List.mem_singleton, List.not_mem_nil, or_false] at hw hx hy hz
    rcases hw with rfl | rfl | rfl | rfl <;> rcases hx with rfl | rfl | rfl | rfl <;>
      rcases hy with rfl | rfl | rfl | rfl <;> rcases hz with rfl | rfl | rfl | rfl <;>
      first
        | exact absurd h (by decide)
        | decide

theorem assignRoles_keeps_fields (src : Nat → Nat) (room : Room)
    (h4 : room.Players.length = 4) :
    (AssignRoles src room).Players.map (fun p => (p.ID, p.Name, p.Score)) =
        room.Players.map (fun p => (p.ID, p.Name, p.Score)) ∧
      (AssignRoles src room).ID = room.ID := by
  simp only [AssignRoles, Room.GetPlayers, h4, ne_eq, not_true_eq_false, if_false,
    Room.UpdatePlayersAndStatus, and_true]
  apply List.ext_getElem
  · simp
  · intro n h1 h2
    simp

theorem rescore_twice (b1 b2 : Bool) (p : Player) :
    rescore b2 (rescore b1 p) = rescore b2 p := by
  by_cases h1 : p.Role = "Raja"
  · simp [rescore, h1]
  · by_cases h2 : p.Role = "Mantri"
    · cases b1 <;> cases b2 <;> simp [rescore, h2]
    · by_cases h3 : p.Role = "Sipahi"
      · simp [rescore, h3]
      · by_cases h4 : p.Role = "Chor"
        · cases b1 <;> cases b2 <;> simp [rescore, h4]
        · simp [rescore, h1, h2, h3, h4]

theorem forall₂_map_self {α β : Type} (R : α → β → Prop) (f : α → β) (l : List α)
    (h : ∀ x ∈ l, R x (f x)) : List.Forall₂ R l (l.map f) := by
  induction l with
  | nil => exact List.Forall₂.nil
  | cons a l ih =>
    exact List.Forall₂.cons (h a (List.mem_cons_self _ _))
      (ih (fun x hx => h x (List.mem_cons_of_mem _ hx)))

theorem processGuess_ok_shape (room : Room) (acting guessed : String) (res : GuessResult)
    (hok : (ProcessGuess room acting guessed).2 = Except.ok res) :
    (ProcessGuess room acting guessed).1 =
        room.UpdatePlayersAndStatus (room.Players.map (rescore res.Correct)) "FINISHED" ∧
      res.Correct = decide (guessed = res.ActualChorID) ∧
      (lastWithRole "Chor" room.Players none).map (fun c => c.ID) = some res.ActualChorID := by
  obtain ⟨_, h2, _, _⟩ := foldl_locate room.Players
    { mantri := none, chor := none, raja := none, sipahi := none }
  simp only at h2
  unfold ProcessGuess at hok ⊢
  simp only [Room.GetPlayers] at hok ⊢
  unfold findHolders at hok ⊢
  rw [h2] at hok ⊢
  cases hm : (List.foldl locate { mantri := none, chor := none, raja := none, sipahi := none }
      room.Players).mantri <;>
    cases hc : lastWithRole "Chor" room.Players none <;>
    cases hr : (List.foldl locate { mantri := none, chor := none, raja := none, sipahi := none }
      room.Players).raja <;>
    cases hs : (List.foldl locate { mantri := none, chor := none, raja := none, sipahi := none }
      room.Players).sipahi <;>
    simp only [hm, hc, hr, hs] at hok ⊢ <;>
    try exact Except.noConfusion hok
  split_ifs at hok ⊢ with hid
  simp only [Except.ok.injEq] at hok
  subst hok
  simp

/-- C24: the shuffle of AssignRoles, as the Fisher-Yates loop driven by its
three index draws (one of 4, one of 3, one of 2 values), reaches each of the 24
orders of the four roles by exactly one triple of draws; every random source
acts through its three draws only; so every role can land on every position,
and on a room of four players the roles are assigned in that order. -/
theorem shuffle_draws_bijective :
    (∀ roles : List String, roles.Perm ["Raja", "Mantri", "Chor", "Sipahi"] →
      ∃ d : Fin 4 × Fin 3 × Fin 2, rolesOfDraws d = roles ∧
        ∀ e : Fin 4 × Fin 3 × Fin 2, rolesOfDraws e = roles → e = d) ∧
      (∀ d : Fin 4 × Fin 3 × Fin 2, (rolesOfDraws d).Perm ["Raja", "Mantri", "Chor", "Sipahi"]) ∧
      (∀ src : Nat → Nat, shuffledRoles src =
        shuffledRoles (drawSource (src 3 % 4) (src 2 % 3) (src 1 % 2))) ∧
      (∀ role ∈ ["Raja", "Mantri", "Chor", "Sipahi"], ∀ pos : Fin 4,
        ∃ d : Fin 4 × Fin 3 × Fin 2, (rolesOfDraws d).getD pos.val "" = role) ∧
      (∀ (room : Room) (d : Fin 4 × Fin 3 × Fin 2), room.Players.length = 4 →
        (AssignRoles (drawSource d.1 d.2.1 d.2.2) room).Players.map (fun p => p.Role) =
          rolesOfDraws d) := by
  refine ⟨perm_initial_cases, fun d => shuffledRoles_perm _, drawSource_mod, ?_, ?_⟩
  · decide
  · intro room d h4
    exact (assignRoles_roles _ room h4).1

theorem shuffle_draws_bijective_witness :
    (["Sipahi", "Chor", "Mantri", "Raja"] : List String).Perm
        ["Raja", "Mantri", "Chor", "Sipahi"] ∧
      (∃ d : Fin 4 × Fin 3 × Fin 2, rolesOfDraws d = ["Sipahi", "Chor", "Mantri", "Raja"] ∧
        ∀ e : Fin 4 × Fin 3 × Fin 2,
          rolesOfDraws e = ["Sipahi", "Chor", "Mantri", "Raja"] → e = d) ∧
      (AssignRoles (drawSource 1 2 0) waitingRoom).Players.map (fun p => p.Role) =
        rolesOfDraws (1, 2, 0) :=
  ⟨by decide, shuffle_draws_bijective.1 _ (by decide),
    shuffle_draws_bijective.2.2.2.2 waitingRoom (1, 2, 0) (by decide)⟩

theorem processGuess_players_only (r1 r2 : Room) (acting guessed : String)
    (h : r1.Players = r2.Players) :
    (ProcessGuess r1 acting guessed).2 = (ProcessGuess r2 acting guessed).2 ∧
      (ProcessGuess r1 acting guessed).1.Players = (ProcessGuess r2 acting guessed).1.Players := by
  unfold ProcessGuess
  simp only [Room.GetPlayers, h]
  cases hm : (findHolders r2.Players).mantri <;>
    cases hc : (findHolders r2.Players).chor <;>
    cases hr : (findHolders r2.Players).raja <;>
    cases hs : (findHolders r2.Players).sipahi <;>
    simp only [hm, hc, hr, hs] <;>
    (try split_ifs) <;>
    simp [h, Room.UpdatePlayersAndStatus]

theorem roleComplete_rescored (room : Room) (hrc : RoleComplete room) (b : Bool) (status : String) :
    RoleComplete (room.UpdatePlayersAndStatus (room.Players.map (rescore b)) status) := by
  unfold RoleComplete at hrc ⊢
  have hroles : (room.Players.map (rescore b)).map (fun p => p.Role) =
      room.Players.map (fun p => p.Role) := by
    rw [List.map_map]
    apply List.map_congr_left
    intro p _
    exact (rescore_frame b p).2.2
  simp only [Room.UpdatePlayersAndStatus, hroles]
  exact hrc

/-- C25: ProcessGuess does not consult the status. For two rooms with the same
player sequence, whatever their status values, and every acting and accused
ID, it returns the same result or the same error and leaves the same players;
on a role-complete room, after a first call by the Mantri the room is FINISHED
and a second call by the Mantri succeeds again and commits the scores its
accused ID gives on the original room. -/
theorem processGuess_status_blind (r1 r2 : Room) (acting guessed : String)
    (h : r1.Players = r2.Players) :
    (ProcessGuess r1 acting guessed).2 = (ProcessGuess r2 acting guessed).2 ∧
      (ProcessGuess r1 acting guessed).1.Players = (ProcessGuess r2 acting guessed).1.Players ∧
      (RoleComplete r1 → ∀ m ∈ r1.Players, m.Role = "Mantri" → ∀ again : String,
        (ProcessGuess r1 m.ID guessed).1.Status = "FINISHED" ∧
          (∃ res, (ProcessGuess (ProcessGuess r1 m.ID guessed).1 m.ID again).2 = Except.ok res) ∧
          (ProcessGuess (ProcessGuess r1 m.ID guessed).1 m.ID again).1.Players =
            (ProcessGuess r1 m.ID again).1.Players) := by
  obtain ⟨h1, h2⟩ := processGuess_players_only r1 r2 acting guessed h
  refine ⟨h1, h2, ?_⟩
  intro hrc m hm hmr again
  obtain ⟨c, hc, hcr⟩ := roleComplete_holder r1 hrc "Chor" (by simp)
  obtain ⟨r, s, hh⟩ := findHolders_roleComplete r1 hrc m c hm hmr hc hcr
  have hfirst : ProcessGuess r1 m.ID guessed =
      (r1.UpdatePlayersAndStatus (r1.Players.map (rescore (decide (guessed = c.ID)))) "FINISHED",
        Except.ok
          { Correct := decide (guessed = c.ID)
            MantriID := m.ID
            ChorID := guessed
            ActualChorID := c.ID
            UpdatedScores := collectScores (r1.Players.map (rescore (decide (guessed = c.ID)))) }) := by
    rw [processGuess_of_holders r1 m c r s m.ID guessed hh]
    simp
  have hsecond : ProcessGuess r1 m.ID again =
      (r1.UpdatePlayersAndStatus (r1.Players.map (rescore (decide (again = c.ID)))) "FINISHED",
        Except.ok
          { Correct := decide (again = c.ID)
            MantriID := m.ID
            ChorID := again
            ActualChorID := c.ID
            UpdatedScores := collectScores (r1.Players.map (rescore (decide (again = c.ID)))) }) := by
    rw [processGuess_of_holders r1 m c r s m.ID again hh]
    simp
  rw [hfirst, hsecond]
  simp only
  set b := decide (guessed = c.ID) with hb
  have hrc1 : RoleComplete (r1.UpdatePlayersAndStatus (r1.Players.map (rescore b)) "FINISHED") :=
    roleComplete_rescored r1 hrc b "FINISHED"
  have hm1 : rescore b m ∈
      (r1.UpdatePlayersAndStatus (r1.Players.map (rescore b)) "FINISHED").Players :=
    List.mem_map.mpr ⟨m, hm, rfl⟩
  have hc1 : rescore b c ∈
      (r1.UpdatePlayersAndStatus (r1.Players.map (rescore b)) "FINISHED").Players :=
    List.mem_map.mpr ⟨c, hc, rfl⟩
  obtain ⟨hmid, _, hmrole⟩ := rescore_frame b m
  obtain ⟨hcid, _, hcrole⟩ := rescore_frame b c
  obtain ⟨r', s', hh1⟩ := findHolders_roleComplete _ hrc1 (rescore b m) (rescore b c) hm1
    (hmrole.trans hmr) hc1 (hcrole.trans hcr)
  have hrun := processGuess_of_holders _ (rescore b m) (rescore b c) r' s' m.ID again hh1
  rw [hmid, hcid] at hrun
  simp only [ne_eq, not_true_eq_false, if_false] at hrun
  rw [hrun]
  refine ⟨rfl, ⟨_, rfl⟩, ?_⟩
  simp only [Room.UpdatePlayersAndStatus, List.map_map]
  apply List.map_congr_left
  intro p _
  exact rescore_twice b _ p

theorem processGuess_status_blind_witness :
    finishedRoom.Players = (finishedRoom.UpdateStatus "WAITING").Players ∧
      (ProcessGuess finishedRoom "p2" "p4").2 =
        (ProcessGuess (finishedRoom.UpdateStatus "WAITING") "p2" "p4").2 ∧
      (ProcessGuess finishedRoom "p2" "p4").1.Players.map (fun p => p.Score) =
        [1000, 0, 800, 500] :=
  ⟨rfl, (processGuess_status_blind finishedRoom (finishedRoom.UpdateStatus "WAITING") "p2" "p4"
    rfl).1, by decide⟩

/-- C27: the heartbeat constants, as exact integer nanosecond counts that fit
a 64-bit duration: pingPeriod = (pongWait * 9) / 10 is 54 seconds, strictly
less than pongWait = 60 seconds, and writeWait = 10 seconds is strictly less
than pingPeriod. -/
theorem heartbeat_ordering :
    pingPeriod = (pongWait * 9) / 10 ∧ pingPeriod = 54 * second ∧ pongWait = 60 * second ∧
      writeWait = 10 * second ∧ pingPeriod < pongWait ∧ writeWait < pingPeriod ∧
      0 < writeWait ∧ pongWait * 9 < 2 ^ 63 := by
  refine ⟨rfl, by decide, rfl, rfl, by decide, by decide, by decide, by decide⟩

/-- C28: AssignRoles changes nothing but roles and status. For a room with
four players and every random source, the players afterwards are as many, in
the same order, each with its ID, Name and Score; the room ID is kept; and the
roles are the shuffled four roles, whatever role each player had before. -/
theorem assignRoles_frame (src : Nat → Nat) (room : Room) (h4 : room.Players.length = 4) :
    (AssignRoles src room).Players.length = room.Players.length ∧
      (AssignRoles src room).Players.map (fun p => (p.ID, p.Name, p.Score)) =
        room.Players.map (fun p => (p.ID, p.Name, p.Score)) ∧
      (AssignRoles src room).ID = room.ID ∧
      (AssignRoles src room).Players.map (fun p => p.Role) = shuffledRoles src ∧
      ∀ p ∈ (AssignRoles src room).Players, p.Role ∈ ["Raja", "Mantri", "Chor", "Sipahi"] := by
  obtain ⟨hfields, hid⟩ := assignRoles_keeps_fields src room h4
  obtain ⟨hroles, _⟩ := assignRoles_roles src room h4
  refine ⟨?_, hfields, hid, hroles, ?_⟩
  · have := congrArg List.length hfields
    simpa using this
  · intro p hp
    have hmem : p.Role ∈ (AssignRoles src room).Players.map (fun p => p.Role) :=
      List.mem_map.mpr ⟨p, hp, rfl⟩
    rw [hroles] at hmem
    exact (shuffledRoles_perm src).subset hmem

theorem assignRoles_frame_witness :
    waitingRoom.Players.length = 4 ∧
      (AssignRoles (fun _ => 0) waitingRoom).Players =
        [⟨"p1", "Asha", "Mantri", 0⟩, ⟨"p2", "Bala", "Chor", 0⟩,
          ⟨"p3", "Chitra", "Sipahi", 0⟩, ⟨"p4", "Dev", "Raja", 0⟩] ∧
      (AssignRoles (fun _ => 0) waitingRoom).Players.length = waitingRoom.Players.length :=
  ⟨by decide, by decide, (assignRoles_frame (fun _ => 0) waitingRoom (by decide)).1⟩

/-- C29: ProcessGuess changes nothing but scores and status. On every room on
which it succeeds, with any number of players and roles held several times,
the committed players match the earlier ones one by one: same ID, Name and
Role; Raja gets 1000, Sipahi 500, Mantri 800 or 0 and Chor 0 or 800 according
to Correct; a player with none of the four roles keeps its score. Correct
tells whether the accused ID is ActualChorID, the ID of the last Chor holder,
and the room ID is kept. -/
theorem processGuess_frame (room : Room) (acting guessed : String) (res : GuessResult)
    (hok : (ProcessGuess room acting guessed).2 = Except.ok res) :
    List.Forall₂
        (fun before after =>
          after.ID = before.ID ∧ after.Name = before.Name ∧ after.Role = before.Role ∧
          (before.Role = "Raja" → after.Score = 1000) ∧
          (before.Role = "Sipahi" → after.Score = 500) ∧
          (before.Role = "Mantri" → after.Score = if res.Correct then 800 else 0) ∧
          (before.Role = "Chor" → after.Score = if res.Correct then 0 else 800) ∧
          (before.Role ∉ ["Raja", "Mantri", "Chor", "Sipahi"] → after.Score = before.Score))
        room.Players (ProcessGuess room acting guessed).1.Players ∧
      (ProcessGuess room acting guessed).1.ID = room.ID ∧
      (ProcessGuess room acting guessed).1.Status = "FINISHED" ∧
      (res.Correct = true ↔ guessed = res.ActualChorID) ∧
      (lastWithRole "Chor" room.Players none).map (fun c => c.ID) = some res.ActualChorID := by
  obtain ⟨hroom, hcorrect, hchor⟩ := processGuess_ok_shape room acting guessed res hok
  rw [hroom]
  refine ⟨?_, rfl, rfl, by simp [hcorrect], hchor⟩
  simp only [Room.UpdatePlayersAndStatus]
  apply forall₂_map_self
  intro p _
  by_cases h1 : p.Role = "Raja"
  · simp [rescore, h1]
  · by_cases h2 : p.Role = "Mantri"
    · cases res.Correct <;> simp [rescore, h2]
    · by_cases h3 : p.Role = "Sipahi"
      · simp [rescore, h3]
      · by_cases h4 : p.Role = "Chor"
        · cases res.Correct <;> simp [rescore, h4]
        · simp [rescore, h1, h2, h3, h4]

theorem processGuess_frame_witness :
    (ProcessGuess crowdedRoom "p2" "p3").1.Players =
        [⟨"p1", "Asha", "Raja", 1000⟩, ⟨"p2", "Bala", "Mantri", 800⟩,
          ⟨"p3", "Chitra", "Chor", 0⟩, ⟨"p4", "Dev", "Sipahi", 500⟩,
          ⟨"p5", "Esha", "Raja", 1000⟩, ⟨"p6", "Farid", "Player", 6⟩] ∧
      (ProcessGuess crowdedRoom "p2" "p3").1.Status = "FINISHED" :=
  ⟨by decide,
    (processGuess_frame crowdedRoom "p2" "p3"
      { Correct := true, MantriID := "p2", ChorID := "p3", ActualChorID := "p3",
        UpdatedScores := [("p1", 1000), ("p2", 800), ("p3", 0), ("p4", 500), ("p5", 1000),
          ("p6", 6)] }
      rfl).2.2.1⟩

/-! ### The WebSocket endpoint and the room handlers -/

theorem relayFrame_decoded (unmarshal : String → Option WSMessage)
    (marshalWS : WSMessage → String) (c : Client) (now : Int) (frame : String) (m : WSMessage)
    (h : unmarshal frame = some m) :
    relayFrame unmarshal marshalWS c now frame =
      some { RoomID := c.RoomID
             Message := marshalWS
               { MessageType := m.MessageType, PlayerID := c.PlayerID, RoomID := c.RoomID,
                 Data := m.Data, Timestamp := now } } := by
  simp [relayFrame, h]

theorem relayFrame_room (unmarshal : String → Option WSMessage)
    (marshalWS : WSMessage → String) (c : Client) (now : Int) (frame : String)
    (b : BroadcastMessage) (h : relayFrame unmarshal marshalWS c now frame = some b) :
    b.RoomID = c.RoomID := by
  unfold relayFrame at h
  cases hu : unmarshal frame with
  | none => simp [hu] at h
  | some m =>
    simp only [hu, Option.some.injEq] at h
    rw [← h]

theorem readPump_relayed (unmarshal : String → Option WSMessage)
    (marshalWS : WSMessage → String) (c : Client) (frames : List (String × Int))
    (leftAt : Int) (count : Nat) :
    (readPump unmarshal marshalWS c frames leftAt count).relayed =
      frames.filterMap (fun frame =>
        (unmarshal frame.1).map (fun m =>
          ({ RoomID := c.RoomID
             Message := marshalWS
               { MessageType := m.MessageType, PlayerID := c.PlayerID, RoomID := c.RoomID,
                 Data := m.Data, Timestamp := frame.2 } } : BroadcastMessage))) := by
  simp only [readPump]
  congr 1
  funext frame
  unfold relayFrame
  cases unmarshal frame.1 <;> rfl

theorem readPump_congr (unmarshal : String → Option WSMessage)
    (marshalWS : WSMessage → String) (c : Client) (frames1 frames2 : List (String × Int))
    (leftAt : Int) (count : Nat)
    (h : List.Forall₂
      (fun a b => a.2 = b.2 ∧
        (a.1 = b.1 ∨ ∃ ma mb, unmarshal a.1 = some ma ∧ unmarshal b.1 = some mb ∧
          ma.MessageType = mb.MessageType ∧ ma.Data = mb.Data))
      frames1 frames2) :
    readPump unmarshal marshalWS c frames1 leftAt count =
      readPump unmarshal marshalWS c frames2 leftAt count := by
  have hrel : frames1.filterMap (fun frame => relayFrame unmarshal marshalWS c frame.2 frame.1) =
      frames2.filterMap (fun frame => relayFrame unmarshal marshalWS c frame.2 frame.1) := by
    induction h with
    | nil => rfl
    | @cons a b l1 l2 hab _ ih =>
      have hhead : relayFrame unmarshal marshalWS c a.2 a.1 =
          relayFrame unmarshal marshalWS c b.2 b.1 := by
        obtain ⟨hclock, hframe⟩ := hab
        rcases hframe with hsame | ⟨ma, mb, hma, hmb, htype, hdata⟩
        · rw [hclock, hsame]
        · rw [relayFrame_decoded unmarshal marshalWS c a.2 a.1 ma hma,
            relayFrame_decoded unmarshal marshalWS c b.2 b.1 mb hmb, hclock, htype, hdata]
      simp only [List.filterMap_cons, hhead, ih]
  simp only [readPump, hrel]

/-- C21: the inbound relay does not trust client-supplied identifiers. For
every connection, readPump submits for broadcast, for each decodable frame it
reads and in the order read, the decoded message with PlayerID and RoomID
replaced by the connection's own and Timestamp by the server clock at that
frame, addressed to the connection's own room, and nothing else; so two
decodable frames that agree in type and data (differing at most in playerId,
roomId and timestamp) yield the same submitted message, singly and inside any
two runs of readPump that otherwise read the same frames at the same clock
values. -/
theorem relay_stamps_own_ids (unmarshal : String → Option WSMessage)
    (marshalWS : WSMessage → String) (c : Client) (now : Int) (f1 f2 : String)
    (m1 m2 : WSMessage) (h1 : unmarshal f1 = some m1) (h2 : unmarshal f2 = some m2)
    (htype : m1.MessageType = m2.MessageType) (hdata : m1.Data = m2.Data) :
    relayFrame unmarshal marshalWS c now f1 = relayFrame unmarshal marshalWS c now f2 ∧
      relayFrame unmarshal marshalWS c now f1 =
        some { RoomID := c.RoomID
               Message := marshalWS
                 { MessageType := m1.MessageType, PlayerID := c.PlayerID, RoomID := c.RoomID,
                   Data := m1.Data, Timestamp := now } } ∧
      (∀ (frames : List (String × Int)) (leftAt : Int) (count : Nat),
        ∀ b ∈ (readPump unmarshal marshalWS c frames leftAt count).relayed,
          b.RoomID = c.RoomID) ∧
      (∀ (frames : List (String × Int)) (leftAt : Int) (count : Nat),
        (readPump unmarshal marshalWS c frames leftAt count).relayed =
          frames.filterMap (fun frame =>
            (unmarshal frame.1).map (fun m =>
              ({ RoomID := c.RoomID
                 Message := marshalWS
                   { MessageType := m.MessageType, PlayerID := c.PlayerID, RoomID := c.RoomID,
                     Data := m.Data, Timestamp := frame.2 } } : BroadcastMessage)))) ∧
      (∀ (before after : List (String × Int)) (leftAt : Int) (count : Nat),
        readPump unmarshal marshalWS c (before ++ (f1, now) :: after) leftAt count =
            readPump unmarshal marshalWS c (before ++ (f2, now) :: after) leftAt count ∧
          (readPump unmarshal marshalWS c (before ++ (f1, now) :: after) leftAt count).relayed =
            (readPump unmarshal marshalWS c before leftAt count).relayed ++
              { RoomID := c.RoomID
                Message := marshalWS
                  { MessageType := m1.MessageType, PlayerID := c.PlayerID, RoomID := c.RoomID,
                    Data := m1.Data, Timestamp := now } } ::
              (readPump unmarshal marshalWS c after leftAt count).relayed) ∧
      (∀ (frames1 frames2 : List (String × Int)) (leftAt : Int) (count : Nat),
        List.Forall₂
          (fun a b => a.2 = b.2 ∧
            (a.1 = b.1 ∨ ∃ ma mb, unmarshal a.1 = some ma ∧ unmarshal b.1 = some mb ∧
              ma.MessageType = mb.MessageType ∧ ma.Data = mb.Data))
          frames1 frames2 →
        readPump unmarshal marshalWS c frames1 leftAt count =
          readPump unmarshal marshalWS c frames2 leftAt count) := by
  refine ⟨?_, relayFrame_decoded unmarshal marshalWS c now f1 m1 h1, ?_,
    readPump_relayed unmarshal marshalWS c, ?_,
    fun frames1 frames2 leftAt count h =>
      readPump_congr unmarshal marshalWS c frames1 frames2 leftAt count h⟩
  · rw [relayFrame_decoded unmarshal marshalWS c now f1 m1 h1,
      relayFrame_decoded unmarshal marshalWS c now f2 m2 h2, htype, hdata]
  · intro frames leftAt count b hb
    simp only [readPump, List.mem_filterMap] at hb
    obtain ⟨frame, _, hrelay⟩ := hb
    exact relayFrame_room unmarshal marshalWS c frame.2 frame.1 b hrelay
  · intro before after leftAt count
    constructor
    · apply readPump_congr
      apply List.rel_append
      · exact List.forall₂_same.mpr (fun a _ => ⟨rfl, Or.inl rfl⟩)
      · exact List.Forall₂.cons ⟨rfl, Or.inr ⟨m1, m2, h1, h2, htype, hdata⟩⟩
          (List.forall₂_same.mpr (fun a _ => ⟨rfl, Or.inl rfl⟩))
    · simp only [readPump, List.filterMap_append, List.filterMap_cons,
        relayFrame_decoded unmarshal marshalWS c now f1 m1 h1]

theorem relay_stamps_own_ids_witness :
    relayFrame sampleUnmarshal sampleMarshalWS clientA 1762164900 "chat as mallory" =
        relayFrame sampleUnmarshal sampleMarshalWS clientA 1762164900 "chat as p1" ∧
      relayFrame sampleUnmarshal sampleMarshalWS clientA 1762164900 "chat as mallory" =
        some { RoomID := "AB12", Message := "chat|p1|AB12" } ∧
      (readPump sampleUnmarshal sampleMarshalWS clientA
          [("noise", 1762164899), ("chat as mallory", 1762164900)] 1762164950 1).relayed =
        [{ RoomID := "AB12", Message := "chat|p1|AB12" }] ∧
      readPump sampleUnmarshal sampleMarshalWS clientA
          [("noise", 1762164899), ("chat as mallory", 1762164900)] 1762164950 1 =
        readPump sampleUnmarshal sampleMarshalWS clientA
          [("noise", 1762164899), ("chat as p1", 1762164900)] 1762164950 1 := by
  have h := relay_stamps_own_ids sampleUnmarshal sampleMarshalWS clientA 1762164900
    "chat as mallory" "chat as p1"
    { MessageType := "chat", PlayerID := "mallory", RoomID := "CD34", Data := [], Timestamp := 99 }
    { MessageType := "chat", PlayerID := "p1", RoomID := "AB12", Data := [], Timestamp := 0 }
    (by decide) (by decide) rfl rfl
  exact ⟨h.1, by decide, by decide,
    (h.2.2.2.2.1 [("noise", 1762164899)] [] 1762164950 1).1⟩

/-- C22: HandleWebSocket checks the route's roomId, then the playerId query
parameter, then the registry, all before the upgrade. An empty playerId is
answered 400, and so is an empty roomId, also when the room is unknown; an
unknown room with both identifiers set is answered 404; in each of these cases
no connection record is created and nothing is sent to the hub's register or
broadcast channels or queued; a record exists only when both identifiers are
set, the room exists and the upgrade succeeded. -/
theorem handleWebSocket_rejects (marshalWS : WSMessage → String) (rm : RoomManager)
    (upgradeError : Option Nat) (addr : Nat) (welcomeAt joinedAt : Int) (count : Nat)
    (roomID playerID : String) (r : WsHandled)
    (hr : r = HandleWebSocket marshalWS rm upgradeError addr welcomeAt joinedAt count
      roomID playerID) :
    (playerID = "" → r.status = 400 ∧ r.client = none ∧ r.registered = [] ∧ r.queued = [] ∧
        r.broadcasts = []) ∧
      (roomID = "" → r.status = 400 ∧ r.body = "roomId is required" ∧ r.client = none ∧
        r.registered = [] ∧ r.queued = [] ∧ r.broadcasts = []) ∧
      (roomID ≠ "" → playerID = "" → r.body = "playerId query parameter is required") ∧
      (roomID ≠ "" → playerID ≠ "" → rm.GetRoom roomID = none →
        r.status = 404 ∧ r.body = "Room not found" ∧ r.client = none ∧ r.registered = [] ∧
          r.queued = [] ∧ r.broadcasts = []) ∧
      ((r.client ≠ none ∨ r.registered ≠ [] ∨ r.queued ≠ [] ∨ r.broadcasts ≠ []) →
        roomID ≠ "" ∧ playerID ≠ "" ∧ rm.GetRoom roomID ≠ none ∧ upgradeError = none) := by
  subst hr
  unfold HandleWebSocket
  by_cases h1 : roomID = ""
  · simp [h1]
  · by_cases h2 : playerID = ""
    · simp [h1, h2]
    · cases h3 : rm.GetRoom roomID with
      | none => simp [h1, h2]
      | some room =>
        cases upgradeError with
        | none => simp [h1, h2]
        | some status => simp [h1, h2]

theorem handleWebSocket_rejects_witness :
    (HandleWebSocket sampleMarshalWS fullRegistry none 7 1 2 1 "AB12" "").status = 400 ∧
      (HandleWebSocket sampleMarshalWS fullRegistry none 7 1 2 1 "AB12" "").registered = [] ∧
      (HandleWebSocket sampleMarshalWS fullRegistry none 7 1 2 1 "AB12" "").body =
        "playerId query parameter is required" := by
  have h := handleWebSocket_rejects sampleMarshalWS fullRegistry none 7 1 2 1 "AB12" "" _ rfl
  exact ⟨(h.1 rfl).1, (h.1 rfl).2.2.1, h.2.2.1 (by decide) rfl⟩

theorem joinRoom_full (marshal : GameMessage → Option String) (rm : RoomManager) (now : String)
    (draw : Nat) (req : JoinRoomRequest) (room : Room)
    (hroom : rm.GetRoom req.RoomID = some room) (hfull : 4 ≤ room.Players.length) :
    (JoinRoom marshal rm now draw (some req)).status = 400 ∧
      (JoinRoom marshal rm now draw (some req)).manager = rm ∧
      (JoinRoom marshal rm now draw (some req)).broadcasts = [] ∧
      (req.RoomID ≠ "" → req.PlayerName ≠ "" →
        (JoinRoom marshal rm now draw (some req)).body =
          Body.error "Room is full (max 4 players)") := by
  unfold JoinRoom
  by_cases hf : req.RoomID = "" ∨ req.PlayerName = ""
  · simp only [hf, if_true, true_and]
    intro h1 h2
    rcases hf with hf | hf
    · exact absurd hf h1
    · exact absurd hf h2
  · simp [hf, hroom, Room.GetPlayers, hfull]

theorem joinRoom_atMostFour (marshal : GameMessage → Option String) (rm : RoomManager)
    (now : String) (draw : Nat) (body : Option JoinRoomRequest) (hinv : AtMostFour rm) :
    AtMostFour (JoinRoom marshal rm now draw body).manager := by
  cases body with
  | none => exact hinv
  | some req =>
    by_cases hf : req.RoomID = "" ∨ req.PlayerName = ""
    · simpa [JoinRoom, hf] using hinv
    · cases hroom : rm.GetRoom req.RoomID with
      | none => simpa [JoinRoom, hf, hroom] using hinv
      | some room =>
        by_cases hfull : 4 ≤ room.Players.length
        · rw [(joinRoom_full marshal rm now draw req room hroom hfull).2.1]
          exact hinv
        · have hlt : room.Players.length < 4 := Nat.lt_of_not_le hfull
          have hfields : req.RoomID ≠ "" ∧ req.PlayerName ≠ "" := by
            constructor
            · exact fun h => hf (Or.inl h)
            · exact fun h => hf (Or.inr h)
          rw [joinRoom_eq marshal rm now draw req room hfields hroom hlt]
          intro code r hget
          simp only [RoomManager.GetRoom, mapGet_mapSet] at hget
          split_ifs at hget with hcode
          · rw [← Option.some.inj hget]
            simp only [Room.AddPlayer, List.length_append, List.length_singleton]
            omega
          · exact hinv code r hget

theorem createRoom_atMostFour (marshal : GameMessage → Option String) (rm : RoomManager)
    (now : String) (draw : Nat → Nat) (body : Option CreateRoomRequest) (hinv : AtMostFour rm) :
    AtMostFour (CreateRoom marshal rm now draw body).manager := by
  cases body with
  | none => exact hinv
  | some req =>
    by_cases hname : req.PlayerName = ""
    · simpa [CreateRoom, hname] using hinv
    · intro code r hget
      simp only [CreateRoom, hname, if_false, RoomManager.GetRoom, RoomManager.CreateRoom,
        mapGet_mapSet] at hget
      split_ifs at hget with hcode
      · rw [← Option.some.inj hget]
        simp [Room.AddPlayer]
      · exact hinv code r hget

theorem serve_atMostFour (marshal : GameMessage → Option String) (calls : List HandlerCall)
    (rm : RoomManager) (hinv : AtMostFour rm) :
    AtMostFour (calls.foldl (HandlerCall.serve marshal) rm) := by
  induction calls generalizing rm with
  | nil => exact hinv
  | cons call calls ih =>
    apply ih
    cases call with
    | createRoom now draw body => exact createRoom_atMostFour marshal rm now draw body hinv
    | joinRoom now draw body => exact joinRoom_atMostFour marshal rm now draw body hinv

/-- C23, refuted as stated: a join request for the full room AB12 that carries
an empty player name is answered 400 with the error of the field check, not
with "Room is full (max 4 players)". -/
theorem joinRoom_full_empty_name :
    fullRegistry.GetRoom "AB12" = some waitingRoom ∧ waitingRoom.Players.length = 4 ∧
      JoinRoom sampleMarshal fullRegistry "20251103101500" 42 (some ⟨"AB12", ""⟩) =
        ⟨fullRegistry, 400, Body.error "roomId and playerName are required", []⟩ := by
  refine ⟨by decide, by decide, by decide⟩

/-- C23, amended: JoinRoom enforces the capacity at the boundary. For an
existing room with four or more players the request is answered 400 and the
registry is unchanged, the error being "Room is full (max 4 players)" when the
request names a player and "roomId and playerName are required" when the name
is empty; for an existing room with fewer than four players and a non-empty
name exactly one player with Role "Player" and Score 0 is appended and the
answer is 200; so in a registry built from the empty one by CreateRoom and
JoinRoom requests served one at a time no room has more than four players. -/
theorem joinRoom_capacity (marshal : GameMessage → Option String) (rm : RoomManager)
    (now : String) (draw : Nat) (req : JoinRoomRequest) (room : Room)
    (hid : req.RoomID ≠ "") (hroom : rm.GetRoom req.RoomID = some room) :
    (4 ≤ room.Players.length →
        (JoinRoom marshal rm now draw (some req)).status = 400 ∧
        (JoinRoom marshal rm now draw (some req)).manager = rm ∧
        (req.PlayerName ≠ "" →
          (JoinRoom marshal rm now draw (some req)).body =
            Body.error "Room is full (max 4 players)") ∧
        (req.PlayerName = "" →
          (JoinRoom marshal rm now draw (some req)).body =
            Body.error "roomId and playerName are required")) ∧
      (room.Players.length < 4 → req.PlayerName ≠ "" →
        (JoinRoom marshal rm now draw (some req)).status = 200 ∧
        ∃ id, ((JoinRoom marshal rm now draw (some req)).manager.GetRoom req.RoomID).map
            (fun r => (r.ID, r.Players, r.Status)) =
          some (room.ID, room.Players ++ [⟨id, req.PlayerName, "Player", 0⟩], room.Status)) ∧
      ∀ (calls : List HandlerCall) (code : String) (r : Room),
        (serveAll marshal calls).GetRoom code = some r → r.Players.length ≤ 4 := by
  refine ⟨?_, ?_, ?_⟩
  · intro hfull
    obtain ⟨h1, h2, _, h4⟩ := joinRoom_full marshal rm now draw req room hroom hfull
    refine ⟨h1, h2, h4 hid, ?_⟩
    intro hname
    simp [JoinRoom, hname]
  · intro hlt hname
    rw [joinRoom_eq marshal rm now draw req room ⟨hid, hname⟩ hroom hlt]
    refine ⟨rfl, generatePlayerID now draw, ?_⟩
    simp [RoomManager.GetRoom, mapGet_mapSet, Room.AddPlayer]
  · intro calls
    exact serve_atMostFour marshal calls NewRoomManager (by
      intro code room h
      simp [RoomManager.GetRoom, NewRoomManager, mapGet] at h)

theorem joinRoom_capacity_witness :
    fullRegistry.GetRoom "AB12" = some waitingRoom ∧
      (JoinRoom sampleMarshal fullRegistry "20251103101500" 42 (some ⟨"AB12", "Esha"⟩)).body =
        Body.error "Room is full (max 4 players)" ∧
      (JoinRoom sampleMarshal fullRegistry "20251103101500" 42 (some ⟨"AB12", "Esha"⟩)).manager =
        fullRegistry ∧
      ((serveAll sampleMarshal sixRequests).GetRoom "4BIP").map
          (fun r => r.Players.map (fun p => p.Name)) =
        some ["Asha", "Bala", "Chitra", "Dev"] := by
  have h := (joinRoom_capacity sampleMarshal fullRegistry "20251103101500" 42 ⟨"AB12", "Esha"⟩
    waitingRoom (by decide) (by decide)).1 (by decide)
  exact ⟨by decide, h.2.2.1 (by decide), h.2.1, by decide⟩

/-! ### Hub histories -/

theorem nodup_setAdd (clients : List Client) (c : Client) (h : clients.Nodup) :
    (setAdd clients c).Nodup := by
  unfold setAdd
  split_ifs with hc
  · exact h
  · rw [List.nodup_append]
    refine ⟨h, List.nodup_singleton c, ?_⟩
    intro x hx hx2
    rw [List.mem_singleton] at hx2
    exact hc (hx2 ▸ hx)

theorem clientsOf_congr (s1 s : HubState) (roomID : String)
    (h : mapGet s1.rooms roomID = mapGet s.rooms roomID) :
    s1.clientsOf roomID = s.clientsOf roomID := by
  simp [HubState.clientsOf, h]

theorem register_sound (s : HubState) (c : Client) (hs : s.Sound)
    (hopen : (s.send c).closed = false) :
    (s.register c).Sound ∧
      (∀ roomID x, x ∈ (s.register c).clientsOf roomID → x ∈ s.clientsOf roomID ∨ x = c) ∧
      (s.register c).send = s.send := by
  obtain ⟨h1, _, h3, h4⟩ := clientsOf_register s c
  have hcl : ∀ roomID, roomID ≠ c.RoomID →
      (s.register c).clientsOf roomID = s.clientsOf roomID :=
    fun roomID hne => clientsOf_congr _ _ roomID (h3 roomID hne)
  refine ⟨?_, ?_, h4⟩
  · intro roomID
    by_cases hr : roomID = c.RoomID
    · subst hr
      rw [h1]
      refine ⟨nodup_setAdd _ c (hs c.RoomID).1, ?_⟩
      intro x hx
      rw [h4]
      rcases (mem_setAdd _ c x).mp hx with hx | rfl
      · exact (hs c.RoomID).2 x hx
      · exact ⟨rfl, hopen⟩
    · rw [hcl roomID hr, h4]
      exact hs roomID
  · intro roomID x hx
    by_cases hr : roomID = c.RoomID
    · subst hr
      rw [h1] at hx
      exact (mem_setAdd _ c x).mp hx
    · rw [hcl roomID hr] at hx
      exact Or.inl hx

theorem unregister_sound (s : HubState) (c : Client) (hs : s.Sound) :
    ∃ s1, s.unregister c = some s1 ∧ s1.Sound ∧
      (∀ roomID x, x ∈ s1.clientsOf roomID → x ∈ s.clientsOf roomID) ∧
      (∀ x, (∀ roomID, x ∉ s.clientsOf roomID) → s1.send x = s.send x) := by
  by_cases hmem : c ∈ s.clientsOf c.RoomID
  · obtain ⟨clients, hget, hc⟩ := (clientsOf_mem_iff s c.RoomID c).mp hmem
    have hcl : s.clientsOf c.RoomID = clients := by simp [HubState.clientsOf, hget]
    have hopen := ((hs c.RoomID).2 c hmem).2
    refine ⟨_, unregister_member s c clients hget hc hopen, ?_⟩
    have hroom : HubState.clientsOf
        { rooms :=
            if (setDelete clients c).length = 0 then
              mapDelete (mapSet s.rooms c.RoomID (setDelete clients c)) c.RoomID
            else mapSet s.rooms c.RoomID (setDelete clients c),
          send := Function.update s.send c { s.send c with closed := true } } c.RoomID =
        setDelete clients c := by
      unfold HubState.clientsOf
      by_cases hlen : (setDelete clients c).length = 0
      · simp [hlen, mapGet_mapDelete, List.length_eq_zero.mp hlen]
      · simp [hlen, mapGet_mapSet]
    have hother : ∀ roomID, roomID ≠ c.RoomID → HubState.clientsOf
        { rooms :=
            if (setDelete clients c).length = 0 then
              mapDelete (mapSet s.rooms c.RoomID (setDelete clients c)) c.RoomID
            else mapSet s.rooms c.RoomID (setDelete clients c),
          send := Function.update s.send c { s.send c with closed := true } } roomID =
        s.clientsOf roomID := by
      intro roomID hne
      apply clientsOf_congr
      by_cases hlen : (setDelete clients c).length = 0
      · simp [hlen, mapGet_mapDelete, mapGet_mapSet, hne]
      · simp [hlen, mapGet_mapSet, hne]
    have hsub : ∀ roomID x, x ∈ HubState.clientsOf
        { rooms :=
            if (setDelete clients c).length = 0 then
              mapDelete (mapSet s.rooms c.RoomID (setDelete clients c)) c.RoomID
            else mapSet s.rooms c.RoomID (setDelete clients c),
          send := Function.update s.send c { s.send c with closed := true } } roomID →
        x ∈ s.clientsOf roomID ∧ x ≠ c := by
      intro roomID x hx
      by_cases hr : roomID = c.RoomID
      · subst hr
        rw [hroom] at hx
        rw [hcl]
        exact (mem_setDelete clients c x).mp hx
      · rw [hother roomID hr] at hx
        refine ⟨hx, ?_⟩
        rintro rfl
        exact hr ((hs roomID).2 x hx).1.symm
    refine ⟨?_, fun roomID x hx => (hsub roomID x hx).1, ?_⟩
    · intro roomID
      constructor
      · by_cases hr : roomID = c.RoomID
        · subst hr
          rw [hroom]
          exact List.Nodup.filter _ (hcl ▸ (hs c.RoomID).1)
        · rw [hother roomID hr]
          exact (hs roomID).1
      · intro x hx
        obtain ⟨hx1, hx2⟩ := hsub roomID x hx
        refine ⟨((hs roomID).2 x hx1).1, ?_⟩
        simp only [Function.update, hx2, dite_false]
        exact ((hs roomID).2 x hx1).2
    · intro x hx
      have hne : x ≠ c := by
        rintro rfl
        exact hx x.RoomID hmem
      simp [Function.update, hne]
  · exact ⟨s, unregister_absent s c hmem, hs, fun _ _ hx => hx, fun _ _ => rfl⟩

theorem broadcastTo_sublist (roomID message : String) (s s1 : HubState) (c : Client)
    (h : s.broadcastTo roomID message c = some s1) (r : String) :
    (s1.clientsOf r).Sublist (s.clientsOf r) := by
  unfold HubState.broadcastTo at h
  cases ht : (s.send c).trySend message with
  | panic => simp [ht] at h
  | sent ch =>
    simp only [ht, Option.some.injEq] at h
    rw [← h]
    exact List.Sublist.refl _
  | full =>
    simp only [ht] at h
    cases hcl : (s.send c).close with
    | none => simp [hcl] at h
    | some ch =>
      simp only [hcl] at h
      cases hget : mapGet s.rooms roomID with
      | none =>
        simp only [hget, Option.some.injEq] at h
        rw [← h]
        exact List.Sublist.refl _
      | some roomClients =>
        simp only [hget, Option.some.injEq] at h
        rw [← h]
        unfold HubState.clientsOf
        by_cases hr : r = roomID
        · subst hr
          simp only [mapGet_mapSet, if_true, Option.getD_some, hget]
          exact List.filter_sublist _
        · simp only [mapGet_mapSet, hr, if_false]
          exact List.Sublist.refl _

theorem broadcastLoop_sublist (roomID message : String) (l : List Client) (s s2 : HubState)
    (h : HubState.broadcastLoop roomID message l s = some s2) (r : String) :
    (s2.clientsOf r).Sublist (s.clientsOf r) := by
  induction l generalizing s with
  | nil =>
    simp only [HubState.broadcastLoop, Option.some.injEq] at h
    rw [← h]
  | cons c rest ih =>
    simp only [HubState.broadcastLoop] at h
    cases hstep : s.broadcastTo roomID message c with
    | none => simp [hstep] at h
    | some s1 =>
      simp only [hstep] at h
      exact (ih s1 h).trans (broadcastTo_sublist roomID message s s1 c hstep r)

theorem broadcast_sound (s : HubState) (m : BroadcastMessage) (hs : s.Sound) :
    ∃ s2, s.broadcast m = some s2 ∧ s2.Sound ∧
      (∀ roomID x, x ∈ s2.clientsOf roomID → x ∈ s.clientsOf roomID) ∧
      (∀ x, (∀ roomID, x ∉ s.clientsOf roomID) → s2.send x = s.send x) := by
  obtain ⟨s2, hrun, hsend, hframe, hmem, _⟩ :=
    broadcastLoop_spec m.RoomID m.Message (s.clientsOf m.RoomID) s (hs m.RoomID).1
      (fun c hc => ((hs m.RoomID).2 c hc).2)
  have hsub : ∀ r, (s2.clientsOf r).Sublist (s.clientsOf r) :=
    broadcastLoop_sublist m.RoomID m.Message _ s s2 hrun
  refine ⟨s2, hrun, ?_, fun r x hx => (hsub r).subset hx, fun x hx => hframe x (hx m.RoomID)⟩
  intro r
  refine ⟨(hs r).1.sublist (hsub r), ?_⟩
  intro x hx
  have hx0 : x ∈ s.clientsOf r := (hsub r).subset hx
  obtain ⟨hroom, hopen⟩ := (hs r).2 x hx0
  refine ⟨hroom, ?_⟩
  by_cases hr : r = m.RoomID
  · subst hr
    have hkeep := ((hmem x).mp hx).2
    have hnotfull : (s.send x).buf.length < (s.send x).cap := by
      by_contra hfull
      exact hkeep ⟨hx0, hfull⟩
    rw [hsend x hx0, if_pos hnotfull]
    exact hopen
  · have hout : x ∉ s.clientsOf m.RoomID := by
      intro hin
      exact hr (hroom.symm.trans ((hs m.RoomID).2 x hin).1)
    rw [hframe x hout]
    exact hopen

theorem step_sound (s : HubState) (e : HubEvent) (hs : s.Sound)
    (hreg : ∀ c, e = HubEvent.register c → (s.send c).closed = false) :
    ∃ s1, s.step e = some s1 ∧ s1.Sound ∧
      (∀ roomID x, x ∈ s1.clientsOf roomID → x ∈ s.clientsOf roomID ∨ e = HubEvent.register x) ∧
      (∀ x, (∀ roomID, x ∉ s.clientsOf roomID) → s1.send x = s.send x) := by
  cases e with
  | register c =>
    obtain ⟨h1, h2, h3⟩ := register_sound s c hs (hreg c rfl)
    refine ⟨s.register c, rfl, h1, ?_, fun x _ => by rw [h3]⟩
    intro roomID x hx
    rcases h2 roomID x hx with h | rfl
    · exact Or.inl h
    · exact Or.inr rfl
  | unregister c =>
    obtain ⟨s1, h1, h2, h3, h4⟩ := unregister_sound s c hs
    exact ⟨s1, h1, h2, fun roomID x hx => Or.inl (h3 roomID x hx), h4⟩
  | broadcast m =>
    obtain ⟨s1, h1, h2, h3, h4⟩ := broadcast_sound s m hs
    exact ⟨s1, h1, h2, fun roomID x hx => Or.inl (h3 roomID x hx), h4⟩

theorem registrations_append (pre post : List HubEvent) :
    registrations (pre ++ post) = registrations pre ++ registrations post := by
  induction pre with
  | nil => rfl
  | cons e pre ih => cases e <;> simp [registrations, ih]

theorem runHub_sound (events : List HubEvent) (s : HubState) (hs : s.Sound)
    (hmem : ∀ roomID, ∀ x ∈ s.clientsOf roomID, x ∉ registrations events)
    (honce : (registrations events).Nodup)
    (hopen : ∀ c ∈ registrations events, (s.send c).closed = false) :
    ∃ s2, HubState.runHub events s = some s2 ∧ s2.Sound := by
  induction events generalizing s with
  | nil => exact ⟨s, rfl, hs⟩
  | cons e rest ih =>
    have hreg : ∀ c, e = HubEvent.register c → (s.send c).closed = false := by
      intro c hc
      subst hc
      exact hopen c (by simp [registrations])
    obtain ⟨s1, hstep, hs1, hmem1, hsend1⟩ := step_sound s e hs hreg
    have hsubset : ∀ c ∈ registrations rest, c ∈ registrations (e :: rest) := by
      intro c hc
      cases e <;> simp [registrations, hc]
    have honce1 : (registrations rest).Nodup := by
      cases e with
      | register c => exact (List.nodup_cons.mp (by simpa [registrations] using honce)).2
      | unregister c => simpa [registrations] using honce
      | broadcast m => simpa [registrations] using honce
    have hmemrest : ∀ roomID, ∀ x ∈ s1.clientsOf roomID, x ∉ registrations rest := by
      intro roomID x hx hreg2
      rcases hmem1 roomID x hx with h | h
      · exact hmem roomID x h (hsubset x hreg2)
      · subst h
        have hnd : (x :: registrations rest).Nodup := by simpa [registrations] using honce
        exact (List.nodup_cons.mp hnd).1 hreg2
    have hopen1 : ∀ c ∈ registrations rest, (s1.send c).closed = false := by
      intro c hc
      have hout : ∀ roomID, c ∉ s.clientsOf roomID :=
        fun roomID hin => hmem roomID c hin (hsubset c hc)
      rw [hsend1 c hout]
      exact hopen c (hsubset c hc)
    obtain ⟨s2, hrun, hs2⟩ := ih s1 hs1 hmemrest honce1 hopen1
    refine ⟨s2, ?_, hs2⟩
    simp only [HubState.runHub, hstep]
    exact hrun

theorem drop_versus_unregister (s : HubState) (c : Client) (message : String)
    (clients : List Client) (hget : mapGet s.rooms c.RoomID = some clients) (hc : c ∈ clients)
    (hopen : (s.send c).closed = false)
    (hfull : ¬ (s.send c).buf.length < (s.send c).cap) :
    s.broadcastTo c.RoomID message c =
        some { rooms := mapSet s.rooms c.RoomID (setDelete clients c),
               send := Function.update s.send c { s.send c with closed := true } } ∧
      s.unregister c =
        some { rooms :=
                 if (setDelete clients c).length = 0 then
                   mapDelete (mapSet s.rooms c.RoomID (setDelete clients c)) c.RoomID
                 else mapSet s.rooms c.RoomID (setDelete clients c),
               send := Function.update s.send c { s.send c with closed := true } } := by
  refine ⟨?_, unregister_member s c clients hget hc hopen⟩
  have hno : ¬ (s.send c).closed = true := by simp [hopen]
  simp only [HubState.broadcastTo, Chan.trySend, if_neg hno, if_neg hfull, Chan.close, hget]

set_option maxRecDepth 100000 in
/-- C26, the code at the failing input: after `floodEvents` the broadcast has
closed the saturated queue and removed the connection, but the key AB12 is
still in the map with an empty set (GetAllRoomIDs lists it), whereas after
`leaveEvents`, where the same connection leaves by unregister, the key is
gone; from the same saturated state `lonelyHub` the two steps give different
maps. -/
theorem broadcast_drop_keeps_empty_room :
    (HubState.runHub floodEvents NewHub).map
        (fun s => (s.rooms, s.GetAllRoomIDs, s.GetClientCount "AB12", (s.send clientA).closed)) =
      some ([("AB12", [])], ["AB12"], 0, true) ∧
    (HubState.runHub leaveEvents NewHub).map
        (fun s => (s.rooms, s.GetAllRoomIDs, s.GetClientCount "AB12", (s.send clientA).closed)) =
      some ([], [], 0, true) ∧
    (lonelyHub.broadcast ⟨"AB12", "tick"⟩).map (fun s => s.rooms) = some [("AB12", [])] ∧
    (lonelyHub.unregister clientA).map (fun s => s.rooms) = some [] := by
  refine ⟨by decide, by decide, by decide, by decide⟩

/-- C30: the hub never operates on a closed queue. When no client is sent on
the register channel twice and each is sent with an open queue, the hub loop,
started with an empty map, runs through every prefix of the events without a
panic, and in the state it reaches every member of a connection set is filed
under its own RoomID and has an open queue, each set listing its members once;
so a send to a member does not hit a closed queue and a close of a member's
queue is not a second close. -/
theorem hub_members_open (send0 : Client → Chan) (pre post : List HubEvent)
    (honce : (registrations (pre ++ post)).Nodup)
    (hopen : ∀ c ∈ registrations (pre ++ post), (send0 c).closed = false) :
    ∃ s, HubState.runHub pre { rooms := [], send := send0 } = some s ∧
      ∀ roomID, (s.clientsOf roomID).Nodup ∧
        ∀ c ∈ s.clientsOf roomID,
          c.RoomID = roomID ∧ (s.send c).closed = false ∧
          (∀ message, (s.send c).trySend message ≠ SendOutcome.panic) ∧
          (s.send c).close ≠ none := by
  rw [registrations_append] at honce hopen
  have hstart : HubState.Sound { rooms := [], send := send0 } := by
    intro roomID
    simp [HubState.clientsOf, mapGet]
  obtain ⟨s, hrun, hs⟩ := runHub_sound pre { rooms := [], send := send0 } hstart
    (by intro roomID x hx; simp [HubState.clientsOf, mapGet] at hx)
    (List.Nodup.of_append_left honce)
    (fun c hc => hopen c (List.mem_append_left _ hc))
  refine ⟨s, hrun, fun roomID => ⟨(hs roomID).1, ?_⟩⟩
  intro c hc
  obtain ⟨h1, h2⟩ := (hs roomID).2 c hc
  refine ⟨h1, h2, ?_, ?_⟩
  · intro message
    unfold Chan.trySend
    rw [h2]
    simp only [Bool.false_eq_true, if_false]
    split_ifs <;> simp
  · simp [Chan.close, h2]

theorem hub_members_open_witness :
    (registrations sampleEvents).Nodup ∧
      ∃ s, HubState.runHub sampleEvents NewHub = some s ∧
        ∀ c ∈ s.clientsOf "AB12", c.RoomID = "AB12" ∧ (s.send c).closed = false := by
  refine ⟨by decide, ?_⟩
  obtain ⟨s, h1, h2⟩ := hub_members_open (fun _ => newSendChan) sampleEvents []
    (by decide) (by decide)
  exact ⟨s, h1, fun c hc => ⟨((h2 "AB12").2 c hc).1, ((h2 "AB12").2 c hc).2.1⟩⟩
